import Mathlib

/-!
Column moving for ui-grid (`ui.grid.moveColumns`)

A shallow embedding of `src/features/move-columns/js/column-movable.js`:
the service `uiGridMoveColumnService` (`moveColumn`, `updateColumnCache`,
`verifyColumnOrder`, `redrawColumnAtPosition`) and the pointer handlers `downFn`, `moveFn`
and `upFn` of the header-cell directive, followed by theorems about them.

JavaScript values are modelled as follows.

* A column object is a record.  Two records stand for the same object exactly when they are
  equal; the field `ref` keeps apart objects that agree on everything else.  This equality is
  what `Array.prototype.indexOf` compares.
* `undefined` is `none`.  Array reads outside the array give `none`.
* Numbers are binary64 numbers with integer values, written as integers; the sums of column
  widths are rounded as binary64 addition rounds them (`toDouble`).  `NaN` (the sum of a
  number and `undefined`) is `none`.
* A thrown `TypeError` (a property read on `undefined`) is `Except.error Fault.typeError`.
-/

namespace ColumnMovable

/-! ## Data model -/

/-- One grid column (a `GridColumn` together with the fields of its `colDef` that the
module reads). -/
structure Column where
  /-- Identity of the object: distinct column objects have distinct `ref`. -/
  ref : Nat
  /-- Value of `colDef.name`, an identifier compared with `!==`. -/
  name : Nat := ref
  /-- Value of `col.visible`, read by `redrawColumnAtPosition`. -/
  visible : Bool := true
  /-- Value of `colDef.visible`; `none` when it is undefined. -/
  colDefVisible : Option Bool := none
  /-- Value of `col.isRowHeader === true`. -/
  isRowHeader : Bool := false
  /-- Value of `colDef.enableColumnMoving`, as resolved by `movableColumnBuilder`. -/
  enableColumnMoving : Bool := true
  /-- Value of `col.drawnWidth`. -/
  drawnWidth : Option Int := none
  /-- Value of `col.width`. -/
  width : Option Int := none
  /-- Value of `colDef.width`. -/
  colDefWidth : Option Int := none
deriving DecidableEq, Repr

/-- The arguments of one `columnPositionChanged` event, queued through `$timeout`. -/
structure Notification where
  colDef : Column
  originalPosition : Int
  newPosition : Int
deriving DecidableEq, Repr

/-- The two messages the module passes to `gridUtil.logError`. -/
inductive LogMsg where
  /-- Text: MoveColumn: Please provide valid values for originalPosition and finalPosition. -/
  | invalidValues
  /-- Text: MoveColumn: Invalid values for originalPosition, finalPosition. -/
  | invalidPositions
deriving DecidableEq, Repr

/-- Ways in which a call can fail to return normally. -/
inductive Fault where
  /-- A property was read on `undefined`: JavaScript throws a `TypeError`. -/
  | typeError
  /-- An assignment would store `undefined` in `grid.columns` or write past its end.
  JavaScript continues with a sparse array; this development does not follow it there. -/
  | sparseArray
  /-- The iteration bound given to `findPositionForRenderIndex` was too small.
  `findPositionForRenderIndex_total` shows that this never happens. -/
  | outOfFuel
deriving DecidableEq, Repr

/-- The part of the grid that the module reads and writes, together with a record of the
calls it makes to its collaborators. -/
structure Grid where
  /-- The array `grid.columns`. -/
  columns : List Column
  /-- The array `grid.rowHeaderColumns`. -/
  rowHeaderColumns : List Column := []
  /-- The array `grid.moveColumns.orderCache`. -/
  orderCache : List Column := []
  /-- Result of `grid.isRTL()`. -/
  rtl : Bool := false
  /-- Number of calls to `grid.queueGridRefresh()` so far. -/
  refreshQueued : Nat := 0
  /-- Callbacks handed to `$timeout` and not yet run, oldest first.  Each one raises
  `columnPositionChanged` with the recorded arguments. -/
  timeouts : List Notification := []
  /-- Messages passed to `gridUtil.logError`, oldest first. -/
  errorLog : List LogMsg := []
  /-- Events raised so far through `grid.api.colMovable.raise.columnPositionChanged`, oldest
  first. -/
  raised : List Notification := []
deriving DecidableEq, Repr

/-! ## Array access -/

/-- JavaScript `columns[i]`: `none` stands for `undefined`. -/
def colAt (columns : List Column) (i : Int) : Option Column :=
  if i < 0 then none else columns[i.toNat]?

/-- JavaScript `columns[i] = v` on a dense array of columns. -/
def storeAt (columns : List Column) (i : Int) (v : Option Column) :
    Except Fault (List Column) :=
  match v with
  | none => .error .sparseArray
  | some c =>
    if 0 ≤ i ∧ i < columns.length then .ok (columns.set i.toNat c)
    else .error .sparseArray

/-- JavaScript `columns.indexOf(c)`: position of the first element that is the same object
as `c`; `none` stands for `-1`. -/
def indexOf : List Column → Column → Option Nat
  | [], _ => none
  | x :: xs, c => if x = c then some 0 else (indexOf xs c).map (· + 1)

/-- JavaScript `columns.splice(start, 1)`: the array without the element at `start`. -/
def spliceOut (columns : List Column) (start : Nat) : List Column :=
  columns.take start ++ columns.drop (start + 1)

/-- JavaScript `columns.splice(start, 0, c)`: `c` inserted at `start`, or appended when
`start` is past the end. -/
def spliceIn (columns : List Column) (start : Nat) (c : Column) : List Column :=
  columns.take start ++ c :: columns.drop start

/-! ## The service -/

/-- Modelled from the spec: `grid.getOnlyDataColumns()` is defined outside this module;
it yields the non-fixed (non-row-header) columns, in order. -/
def getOnlyDataColumns (columns : List Column) : List Column :=
  columns.filter (fun c => !c.isRowHeader)

/-- Source `updateColumnCache` (lines 148-150). -/
def updateColumnCache (grid : Grid) : Grid :=
  { grid with orderCache := getOnlyDataColumns grid.columns }

/-- Body of the `angular.forEach` callback of `verifyColumnOrder` (lines 163-167). -/
def verifyStep (headerRowOffset : Nat) (columns : List Column) (cacheCol : Column)
    (cacheIndex : Nat) : List Column :=
  match indexOf columns cacheCol with
  | none => columns
  | some newIndex =>
    if (newIndex : Int) - (headerRowOffset : Int) ≠ (cacheIndex : Int) then
      match columns[newIndex]? with
      | some column => spliceIn (spliceOut columns newIndex) (cacheIndex + headerRowOffset) column
      | none => columns
    else columns

/-- The `angular.forEach` loop of `verifyColumnOrder` over the cache entries from
`cacheIndex` on. -/
def verifyLoop (headerRowOffset : Nat) : List Column → Nat → List Column → List Column
  | columns, _, [] => columns
  | columns, cacheIndex, cacheCol :: rest =>
    verifyLoop headerRowOffset (verifyStep headerRowOffset columns cacheCol cacheIndex)
      (cacheIndex + 1) rest

/-- Source `verifyColumnOrder` (lines 158-169). -/
def verifyColumnOrder (grid : Grid) : Grid :=
  { grid with
    columns := verifyLoop grid.rowHeaderColumns.length grid.columns 0 grid.orderCache }

/-- The loop of lines 180-184, started at `i0` with `n` indices left to visit: `true` when it
stops at a column whose `visible` is truthy, `false` when it runs past the upper bound. -/
def scanVisible (columns : List Column) : Int → Nat → Except Fault Bool
  | _, 0 => .ok false
  | i0, n + 1 =>
    match colAt columns i0 with
    | none => .error .typeError
    | some c => if c.visible then .ok true else scanVisible columns (i0 + 1) n

/-- The loop of lines 193-195, at `i1` with `n` iterations left. -/
def shiftRight : List Column → Int → Nat → Except Fault (List Column)
  | columns, _, 0 => .ok columns
  | columns, i1, n + 1 =>
    match storeAt columns i1 (colAt columns (i1 - 1)) with
    | .error e => .error e
    | .ok columns1 => shiftRight columns1 (i1 - 1) n

/-- The loop of lines 198-200, at `i2` with `n` iterations left. -/
def shiftLeft : List Column → Int → Nat → Except Fault (List Column)
  | columns, _, 0 => .ok columns
  | columns, i2, n + 1 =>
    match storeAt columns i2 (colAt columns (i2 + 1)) with
    | .error e => .error e
    | .ok columns1 => shiftLeft columns1 (i2 + 1) n

/-- Lines 192-202: both shifting loops and the final store of the moved column. -/
def shiftColumns (columns : List Column) (originalColumn : Column)
    (originalPosition newPosition : Int) : Except Fault (List Column) :=
  let shifted :=
    if originalPosition > newPosition then
      shiftRight columns originalPosition (originalPosition - newPosition).toNat
    else if newPosition > originalPosition then
      shiftLeft columns originalPosition (newPosition - originalPosition).toNat
    else .ok columns
  match shifted with
  | .error e => .error e
  | .ok columns1 => storeAt columns1 newPosition (some originalColumn)

/-- Lines 203-208: what a commit does once `columns1` is the new content of `grid.columns`:
`service.updateColumnCache(grid)`, `grid.queueGridRefresh()` and the `$timeout` call. -/
def commitMove (grid : Grid) (columns1 : List Column) (originalColumn : Column)
    (originalPosition newPosition : Int) : Grid :=
  let cached := updateColumnCache { grid with columns := columns1 }
  { cached with
    refreshQueued := cached.refreshQueued + 1
    timeouts := cached.timeouts ++ [⟨originalColumn, originalPosition, newPosition⟩] }

/-- Source `redrawColumnAtPosition` (lines 170-210). -/
def redrawColumnAtPosition (grid : Grid) (originalPosition newPosition : Int) :
    Except Fault Grid :=
  if originalPosition = newPosition then .ok grid
  else
    let pos := if originalPosition < newPosition then originalPosition + 1
      else originalPosition - 1
    let lo := min pos newPosition
    let hi := max pos newPosition
    match scanVisible grid.columns lo (hi - lo + 1).toNat with
    | .error e => .error e
    | .ok false => .ok grid
    | .ok true =>
      match colAt grid.columns originalPosition with
      | none => .error .typeError
      | some originalColumn =>
        if originalColumn.enableColumnMoving then
          match shiftColumns grid.columns originalColumn originalPosition newPosition with
          | .error e => .error e
          | .ok columns1 =>
            .ok (commitMove grid columns1 originalColumn originalPosition newPosition)
        else .ok grid

/-- The callback of lines 205-208, run for the oldest pending `$timeout`:
`notifyDataChange(COLUMN)` invokes the data-change callbacks registered for column changes,
of which this module registers `verifyColumnOrder` (line 32), and then the event
`columnPositionChanged` is raised with the recorded arguments. -/
def runTimeout (grid : Grid) : Grid :=
  match grid.timeouts with
  | [] => grid
  | n :: rest =>
    { verifyColumnOrder grid with
      timeouts := rest
      raised := grid.raised ++ [n] }

/-- Runs every pending `$timeout` callback, oldest first. -/
def flushTimeouts (grid : Grid) : Grid :=
  runTimeout^[grid.timeouts.length] grid

/-- The test of lines 81 and 92: `colDef.visible` is defined and `=== false`, or the column
is a row header. -/
def isHiddenOrRowHeader (c : Column) : Bool :=
  c.colDefVisible == some false || c.isRowHeader

/-- The loop of `findPositionForRenderIndex` (lines 91-95) at loop variable `i` with the
current `position`; the first argument bounds the number of iterations. -/
def findLoop (columns : List Column) : Nat → Nat → Int → Option Int
  | 0, _, _ => none
  | fuel + 1, i, position =>
    if (i : Int) ≤ position then
      match columns[i]? with
      | some c =>
        if isHiddenOrRowHeader c then findLoop columns fuel (i + 1) (position + 1)
        else findLoop columns fuel (i + 1) position
      | none => findLoop columns fuel (i + 1) position
    else some position

/-- Source `findPositionForRenderIndex` (lines 89-97).  The iteration bound
`index + columns.length + 2` is never reached. -/
def findPositionForRenderIndex (columns : List Column) (index : Int) : Option Int :=
  findLoop columns (index.toNat + columns.length + 2) 0 index

/-- Number of columns that `moveColumn` counts as slots: `columns.length - nonMovableColumns`
(lines 79-85). -/
def movableCount (columns : List Column) : Int :=
  (columns.length : Int) - (columns.countP isHiddenOrRowHeader : Int)

/-- Source `moveColumn` (lines 73-99).  Both arguments are integers, so the `isNumber` test of
line 75 passes. -/
def moveColumn (grid : Grid) (originalPosition finalPosition : Int) : Except Fault Grid :=
  if originalPosition ≥ movableCount grid.columns ∨ finalPosition ≥ movableCount grid.columns
  then .ok { grid with errorLog := grid.errorLog ++ [LogMsg.invalidPositions] }
  else
    match findPositionForRenderIndex grid.columns originalPosition,
      findPositionForRenderIndex grid.columns finalPosition with
    | some a, some b => redrawColumnAtPosition grid a b
    | _, _ => .error .outOfFuel

/-! ## The pointer-up handler of the header cell -/

/-- The closure variables of one header cell that `upFn` reads. -/
structure HeaderCell where
  /-- Value of `$scope.col.colDef.name`. -/
  colName : Nat
  /-- The flag `moveOccurred`, set by `moveFn` on the first move with a nonzero delta. -/
  moveOccurred : Bool := false
  /-- The accumulated displacement `totalMouseMovement`. -/
  totalMouseMovement : Int := 0
deriving DecidableEq, Repr

/-- The test of lines 421, 433, 461 and 473: `colDef.visible` is undefined or `=== true`. -/
def isShown (c : Column) : Bool :=
  c.colDefVisible == none || c.colDefVisible == some true

/-- JavaScript `a || b` on numbers: `undefined` and `0` are falsy. -/
def jsOr (a b : Option Int) : Option Int :=
  match a with
  | some x => if x = 0 then b else some x
  | none => b

/-- The width expression `col.drawnWidth || col.width || col.colDef.width`. -/
def columnWidth (c : Column) : Option Int :=
  jsOr c.drawnWidth (jsOr c.width c.colDefWidth)

/-- Position of the leading binary digit of `n` (0 for `n < 2`); the first argument bounds the
number of halvings. -/
def leadingBit : Nat → Nat → Nat
  | 0, _ => 0
  | fuel + 1, n => if n < 2 then 0 else leadingBit fuel (n / 2) + 1

/-- The number `2 ^ 1024`, the first power of two that binary64 cannot hold; it stands for
`Infinity` and its negative for `-Infinity`. -/
def infinityCode : Nat :=
  179769313486231590772930519078902473361797697894230657273430081157732675805500963132708477322407536021120113879871393357658789768814416622492847430639474124377767893424865485276302219601246094119453082952085005768838150682342462881473913110540827237163350510684586298239947245938479716304835356329624224137216

/-- The binary64 number nearest to the integer `s`, ties going to the even significand, as
JavaScript arithmetic rounds.  Integers up to `2 ^ 53` in magnitude are binary64 numbers
themselves; larger ones keep their 53 leading binary digits; past the largest binary64
number the result is infinite. -/
def toDouble (s : Int) : Int :=
  let n := s.natAbs
  if n ≤ 2 ^ 53 then s
  else
    let shift := leadingBit n n - 52
    let q := n / 2 ^ shift
    let r := n % 2 ^ shift
    let half := 2 ^ (shift - 1)
    let q1 := if half < r ∨ (r = half ∧ q % 2 = 1) then q + 1 else q
    let m := min (q1 * 2 ^ shift) infinityCode
    if s < 0 then -(m : Int) else (m : Int)

/-- JavaScript `total += w` on binary64 numbers with integer values: the exact sum, rounded.
`none` is `NaN` (a number plus `undefined`, or two infinities of opposite sign); otherwise an
infinite operand is the result. -/
def addWidth (total w : Option Int) : Option Int :=
  match total, w with
  | some t, some x =>
    if infinityCode ≤ t.natAbs then
      if infinityCode ≤ x.natAbs ∧ decide (t < 0) ≠ decide (x < 0) then none
      else some (toDouble t)
    else if infinityCode ≤ x.natAbs then some (toDouble x)
    else some (toDouble (t + x))
  | _, _ => none

/-- JavaScript `total > bound`, false when `total` is `NaN`. -/
def exceeds (total : Option Int) (bound : Int) : Bool :=
  match total with
  | some t => decide (bound < t)
  | none => false

/-- JavaScript `total < bound`, false when `total` is `NaN`. -/
def fallsShort (total : Option Int) (bound : Int) : Bool :=
  match total with
  | some t => decide (t < bound)
  | none => false

/-- JavaScript `Math.abs` on an integer. -/
def jsAbs (x : Int) : Int := if x < 0 then -x else x

/-- The loop of lines 404-411: index of the first column named `name`, or `columns.length`. -/
def findColumnIndex : List Column → Nat → Nat
  | [], _ => 0
  | c :: rest, name => if c.name ≠ name then findColumnIndex rest name + 1 else 0

/-- The downward scanning loops (lines 432-441 with `floor = 0`, lines 460-469 with
`floor = 1`).  The list holds the columns still to visit, nearest first, so that the head is
`columns[il]` with `il = floor + rest.length`; the loop index never leaves the array because
`columnIndex ≤ columns.length`.  The result is the final value of the running total and the
index at which the call to `redrawColumnAtPosition` and the `break` happened, if any. -/
def scanDownward (bound : Int) (floor : Nat) :
    List Column → Option Int → Option Int × Option Nat
  | [], total => (total, none)
  | c :: rest, total =>
    if isShown c then
      if exceeds (addWidth total (columnWidth c)) bound then
        (addWidth total (columnWidth c), some (floor + rest.length))
      else scanDownward bound floor rest (addWidth total (columnWidth c))
    else scanDownward bound floor rest total

/-- The upward scanning loops (lines 420-429 and 472-481).  The list holds the columns from
index `i` to the end of the array.  The result is as for `scanDownward`. -/
def scanUpward (bound : Int) : List Column → Nat → Option Int → Option Int × Option Nat
  | [], _, total => (total, none)
  | c :: rest, i, total =>
    if isShown c then
      if exceeds (addWidth total (columnWidth c)) bound then
        (addWidth total (columnWidth c), some i)
      else scanUpward bound rest (i + 1) (addWidth total (columnWidth c))
    else scanUpward bound rest (i + 1) total

/-- Lines 413-494 of `upFn`: the calls `redrawColumnAtPosition(grid, origin, target)` that the
handler makes, in order, as pairs `(origin, target)`.  A scanning loop makes its call and
breaks, and the test that follows the loop reads only the running total, so the calls do not
depend on what earlier calls did to the grid. -/
def upFnCalls (columns : List Column) (rtl : Bool) (columnIndex : Nat)
    (totalMouseMovement : Int) : List (Int × Int) :=
  if totalMouseMovement < 0 then
    let bound := jsAbs totalMouseMovement
    let r :=
      if rtl then scanUpward bound (columns.drop (columnIndex + 1)) (columnIndex + 1) (some 0)
      else scanDownward bound 0 (columns.take columnIndex).reverse (some 0)
    let inLoop : List (Int × Int) :=
      match r.2 with
      | some il => [((columnIndex : Int), if rtl then (il : Int) - 1 else (il : Int) + 1)]
      | none => []
    let afterLoop : List (Int × Int) :=
      if fallsShort r.1 bound then
        [((columnIndex : Int), if rtl then (columns.length : Int) - 1 else 0)]
      else []
    inLoop ++ afterLoop
  else if totalMouseMovement > 0 then
    let r :=
      if rtl then
        scanDownward totalMouseMovement 1 ((columns.take columnIndex).drop 1).reverse (some 0)
      else
        scanUpward totalMouseMovement (columns.drop (columnIndex + 1)) (columnIndex + 1)
          (some 0)
    let inLoop : List (Int × Int) :=
      match r.2 with
      | some ir => [((columnIndex : Int), if rtl then (ir : Int) else (ir : Int) - 1)]
      | none => []
    let afterLoop : List (Int × Int) :=
      if fallsShort r.1 totalMouseMovement then
        [((columnIndex : Int), if rtl then 0 else (columns.length : Int) - 1)]
      else []
    inLoop ++ afterLoop
  else []

/-- Runs a sequence of `redrawColumnAtPosition` calls; an exception ends it. -/
def runCalls : Grid → List (Int × Int) → Except Fault Grid
  | grid, [] => .ok grid
  | grid, (origin, target) :: rest =>
    match redrawColumnAtPosition grid origin target with
    | .error e => .error e
    | .ok grid1 => runCalls grid1 rest

/-- Source `upFn` (lines 385-498), as far as the grid is concerned: removing the cloned
element, rebinding the listeners and clearing the border classes touch only the page. -/
def upFn (cell : HeaderCell) (grid : Grid) : Except Fault Grid :=
  if !cell.moveOccurred then .ok grid
  else
    runCalls grid (upFnCalls grid.columns grid.rtl
      (findColumnIndex grid.columns cell.colName) cell.totalMouseMovement)

/-! ## The pointer handlers of the header cell -/

/-- What a handler reads from the event and from the page while it runs. -/
structure PointerEvent where
  /-- Value of `event.pageX || (event.originalEvent ? event.originalEvent.pageX : 0)`. -/
  pageX : Int
  /-- Left edge of the grid element, plus the width of the left container when the grid has
  one (lines 325-328). -/
  gridLeft : Int := 0
  /-- Value of `$scope.grid.getViewportWidth()`. -/
  viewportWidth : Int := 0
  /-- Value of `movingElm[0].getBoundingClientRect().left`. -/
  elmLeft : Int := 0
  /-- Value of `movingElm[0].getBoundingClientRect().right`. -/
  elmRight : Int := 0
  /-- Value of `Math.ceil(uiGridCtrl.grid.gridWidth)`. -/
  gridWidth : Int := 0
  /-- Value of `$scope.newScrollLeft`; `none` when it is undefined. -/
  newScrollLeft : Option Int := none
  /-- Value of `$elm.index()`. -/
  indexOnDom : Int := 0
deriving DecidableEq, Repr

/-- The closure variables of lines 311-321 that hold data (the cloned element and its
reduced width belong to the page). -/
structure DragVars where
  /-- Value of `$scope.col.colDef.name`. -/
  colName : Nat
  gridLeft : Int := 0
  previousMouseX : Int := 0
  /-- The accumulated displacement; `none` is `NaN`. -/
  totalMouseMovement : Option Int := some 0
  rightMoveLimit : Int := 0
  elmCloned : Bool := false
  moveOccurred : Bool := false
  oldMouseMovement : Int := 0
  leftMoveLimit : Int := 0
deriving DecidableEq, Repr

/-- The variables that `upFn` reads.  A `NaN` displacement takes neither branch of `upFn`
(both `NaN < 0` and `NaN > 0` are false), exactly like `0`. -/
def DragVars.toCell (v : DragVars) : HeaderCell :=
  { colName := v.colName
    moveOccurred := v.moveOccurred
    totalMouseMovement := v.totalMouseMovement.getD 0 }

/-- Source `downFn` (lines 323-345). -/
def downFn (ev : PointerEvent) (v : DragVars) : DragVars :=
  { v with
    gridLeft := ev.gridLeft
    previousMouseX := ev.pageX
    totalMouseMovement := some 0
    rightMoveLimit := ev.gridLeft + ev.viewportWidth
    oldMouseMovement := 0
    leftMoveLimit := ev.pageX - ev.gridLeft }

/-- Lines 587-598 of `moveElement`: the widths of the shown columns in front of the first
shown column with the name of this header cell. -/
def widthBefore (name : Nat) : List Column → Option Int → Option Int
  | [], total => total
  | c :: rest, total =>
    if isShown c then
      if c.name ≠ name then widthBefore name rest (addWidth total (columnWidth c))
      else total
    else widthBefore name rest total

/-- Source `moveElement` (lines 540-701), as far as the closure variables are concerned.
The second component tells whether the call ended in a `TypeError`: the drop-zone loop of
lines 655-669 starts at `visibleColumnsOnGrid[indexOnDom - 1]`, which is undefined when the
list of movable visible columns is that short.  The pointer and scroll readings are pixel
counts, on which the additions and the product by 8 are exact; only the sums of column
widths go through `addWidth`. -/
def moveElement (ev : PointerEvent) (changeValue : Int) (columns : List Column)
    (v : DragVars) : DragVars × Bool :=
  let oob : Bool :=
    (match v.totalMouseMovement with
      | some t => decide (t ≤ -v.leftMoveLimit)
      | none => false) && decide (v.oldMouseMovement < -v.leftMoveLimit)
  let totalColumnWidth := columns.foldl
    (fun total c => if isShown c then addWidth total (columnWidth c) else total) (some 0)
  let currentElmLeft := ev.elmLeft - 1
  let currentElmRight := ev.elmRight
  let newElementLeft0 := if oob then 0 else currentElmLeft - v.gridLeft + changeValue
  let newElementLeft :=
    if newElementLeft0 < v.rightMoveLimit then newElementLeft0 else v.rightMoveLimit
  let inside : Bool :=
    (decide (currentElmLeft ≥ v.gridLeft) || decide (changeValue > 0)) &&
      (decide (currentElmRight ≤ v.rightMoveLimit) || decide (changeValue < 0))
  let changeValue1 :=
    if inside then changeValue
    else if exceeds totalColumnWidth ev.gridWidth then changeValue * 8
    else changeValue
  let totalColumnsLeftWidth := widthBefore v.colName columns (some 0)
  let v1 : DragVars :=
    match ev.newScrollLeft with
    | none =>
      { v with
        oldMouseMovement := v.oldMouseMovement + changeValue1
        totalMouseMovement :=
          some (if oob then -v.leftMoveLimit else v.oldMouseMovement + changeValue1) }
    | some scrollLeft =>
      { v with
        totalMouseMovement :=
          match totalColumnsLeftWidth with
          | some w => some (scrollLeft + newElementLeft - w)
          | none => none }
  let visibleColumnsOnGrid := columns.filter (fun c => c.enableColumnMoving && c.visible)
  let threw : Bool :=
    match v1.totalMouseMovement with
    | some t =>
      decide (t < 0) && decide (1 ≤ ev.indexOnDom) &&
        decide ((visibleColumnsOnGrid.length : Int) ≤ ev.indexOnDom - 1)
    | none => false
  (v1, threw)

/-- Source `moveFn` (lines 347-363) with `cloneElement` (lines 519-538).  When `moveElement`
throws, the assignment `previousMouseX = pageX` of line 361 is not reached. -/
def moveFn (ev : PointerEvent) (columns : List Column) (v : DragVars) : DragVars :=
  let changeValue := ev.pageX - v.previousMouseX
  if changeValue = 0 then v
  else if !v.elmCloned then { v with moveOccurred := true, elmCloned := true }
  else
    let r := moveElement ev changeValue columns { v with moveOccurred := true }
    if r.2 then r.1 else { r.1 with previousMouseX := ev.pageX }

/-- The closure variables after `upFn` (lines 389-393): once an element has been cloned,
`movingElm` stays defined, so `elmCloned` is false afterwards in every case. -/
def upFnVars (v : DragVars) : DragVars :=
  { v with elmCloned := false }

/-- A pointer-down, a sequence of pointer-moves and the pointer-up that ends the gesture:
the grid after `upFn`. -/
def gesture (down : PointerEvent) (moves : List PointerEvent) (v : DragVars) (grid : Grid) :
    Except Fault Grid :=
  upFn (moves.foldl (fun w ev => moveFn ev grid.columns w) (downFn down v)).toCell grid

/-! ## Specification vocabulary -/

/-- A column that `moveColumn` counts as a slot: neither hidden through `colDef.visible` nor a
row header. -/
def isSlotColumn (c : Column) : Bool := !isHiddenOrRowHeader c

/-- `IsSlot columns k i`: the column at absolute index `i` is a slot column and exactly `k`
slot columns precede it. -/
def IsSlot (columns : List Column) (k : Nat) (i : Nat) : Prop :=
  (∃ c, columns[i]? = some c ∧ isHiddenOrRowHeader c = false) ∧
    (columns.take i).countP isSlotColumn = k


/-- The column array after the column at `a` has been removed and reinserted at `b`. -/
def movedColumns (columns : List Column) (a b : Nat) : List Column :=
  match columns[a]? with
  | some c => spliceIn (spliceOut columns a) b c
  | none => columns

/-- The guard of lines 177-188 in words: some column with index in `(a, b]` (when `a < b`) or
in `[b, a)` (when `b < a`) has a truthy `visible`. -/
def VisibleInGuardRange (columns : List Column) (a b : Nat) : Prop :=
  ∃ i c, ((a < i ∧ i ≤ b) ∨ (b ≤ i ∧ i < a)) ∧ columns[i]? = some c ∧ c.visible = true

/-- The three conditions under which `redrawColumnAtPosition` commits. -/
def Commits (columns : List Column) (a b : Nat) : Prop :=
  a ≠ b ∧ VisibleInGuardRange columns a b ∧
    ∃ c, columns[a]? = some c ∧ c.enableColumnMoving = true

/-- The data-model invariant on fixed columns: the row-header columns of `grid.columns` are
exactly its first `grid.rowHeaderColumns.length` columns. -/
def RowHeaderPrefix (grid : Grid) : Prop :=
  grid.rowHeaderColumns.length ≤ grid.columns.length ∧
    ∀ (i : Nat) (c : Column), grid.columns[i]? = some c →
      (c.isRowHeader = true ↔ i < grid.rowHeaderColumns.length)

/-- The spec's column has one `visible` attribute.  The source reads it in two places, as
`col.visible` (line 181) and as `colDef.visible` (lines 81, 92, 421, 433, 461, 473);
`FlagsAgree columns` says that the two readings agree on every column: `col.visible` is true
exactly when `colDef.visible` is undefined or true. -/
def FlagsAgree (columns : List Column) : Prop :=
  ∀ c ∈ columns, c.visible = isShown c

/-- One step of the running total: a shown column adds its width, any other column adds
nothing. -/
def addColumn (total : Option Int) (c : Column) : Option Int :=
  if isShown c then addWidth total (columnWidth c) else total

/-- Sum of the widths of the shown columns of a list, taken in order. -/
def widthsMet (cols : List Column) : Option Int :=
  cols.foldl addColumn (some 0)

/-- The columns met when walking from index `o - 1` down to index `j`, nearest first. -/
def metLeft (columns : List Column) (o j : Nat) : List Column :=
  ((columns.take o).drop j).reverse

/-- The columns met when walking from index `o + 1` up to index `j`, nearest first. -/
def metRight (columns : List Column) (o j : Nat) : List Column :=
  (columns.drop (o + 1)).take (j - o)

/-! ## Example grids -/

/-- A visible, movable data column with identity `r`. -/
def dataCol (r : Nat) : Column := { ref := r }

/-- A hidden data column: `colDef.visible` is `false` and so is `col.visible`. -/
def hiddenCol (r : Nat) : Column := { ref := r, visible := false, colDefVisible := some false }

/-- A row-header column. -/
def rowHeaderCol (r : Nat) : Column :=
  { ref := r, isRowHeader := true, enableColumnMoving := false }

/-- Three data columns, the middle one hidden. -/
def exampleHidden : Grid := { columns := [dataCol 0, hiddenCol 1, dataCol 2] }

/-- Three visible, movable data columns. -/
def exampleThree : Grid := { columns := [dataCol 0, dataCol 1, dataCol 2] }

/-- A grid with a single visible, movable data column. -/
def exampleOne : Grid := { columns := [dataCol 0] }

/-- Two visible data columns, the first with `enableColumnMoving` false. -/
def examplePinnedFirst : Grid :=
  { columns := [{ ref := 0, enableColumnMoving := false }, dataCol 1] }

/-- Two data columns, a hidden column and one more data column. -/
def exampleHiddenThird : Grid :=
  { columns := [dataCol 0, dataCol 1, hiddenCol 2, dataCol 3] }

/-- A row header, two data columns, a hidden column and one more data column. -/
def exampleMixed : Grid :=
  { columns := [rowHeaderCol 9, dataCol 1, dataCol 2, hiddenCol 3, dataCol 4]
    rowHeaderColumns := [rowHeaderCol 9] }

/-- A row header and three data columns, with the cached order `[2, 1, 3]`. -/
def exampleCached : Grid :=
  { columns := [rowHeaderCol 9, dataCol 1, dataCol 2, dataCol 3]
    rowHeaderColumns := [rowHeaderCol 9]
    orderCache := [dataCol 2, dataCol 1, dataCol 3] }

/-- A column that is new since the last snapshot, followed by the one cached column. -/
def exampleNewColumn : Grid :=
  { columns := [dataCol 7, dataCol 1], orderCache := [dataCol 1] }

/-- The column 1 is skipped by `upFn` (`colDef.visible` is `false`) while its own `visible`
flag is still `true`; the outer columns are 100 wide. -/
def exampleStaleVisible : Grid :=
  { columns := [{ ref := 0, drawnWidth := some 100 },
      { ref := 1, colDefVisible := some false, visible := true, drawnWidth := some 100 },
      { ref := 2, drawnWidth := some 100 }] }

/-- Columns of widths 1, `2 ^ 53` and 100: adding 1 to `2 ^ 53` is lost to rounding. -/
def exampleHuge : Grid :=
  { columns := [{ ref := 0, drawnWidth := some 1 },
      { ref := 1, drawnWidth := some 9007199254740992 },
      { ref := 2, drawnWidth := some 100 }] }

/-- Three columns, each 100 wide, the middle one hidden. -/
def exampleWide : Grid :=
  { columns := [{ ref := 0, drawnWidth := some 100 },
      { ref := 1, colDefVisible := some false, visible := false, drawnWidth := some 100 },
      { ref := 2, drawnWidth := some 100 }] }

/-- A drag of the column named 2 by 50 to the left. -/
def exampleDragLeft : HeaderCell :=
  { colName := 2, moveOccurred := true, totalMouseMovement := -50 }

/-- A visible, movable data column with identity `r` drawn `w` wide. -/
def wideCol (r : Nat) (w : Int) : Column := { ref := r, drawnWidth := some w }

/-- Three visible columns, each 100 wide. -/
def exampleWidths : Grid := { columns := [wideCol 0 100, wideCol 1 100, wideCol 2 100] }

/-- The same three columns in a right-to-left grid. -/
def exampleWidthsRtl : Grid :=
  { columns := [wideCol 0 100, wideCol 1 100, wideCol 2 100], rtl := true }

/-- A row header 30 wide followed by two data columns 100 wide. -/
def exampleFixed : Grid :=
  { columns := [{ rowHeaderCol 9 with drawnWidth := some 30 }, wideCol 1 100, wideCol 2 100]
    rowHeaderColumns := [{ rowHeaderCol 9 with drawnWidth := some 30 }] }

/-- A finished drag of the column named `name` with accumulated displacement `d`. -/
def dragOf (name : Nat) (d : Int) : HeaderCell :=
  { colName := name, moveOccurred := true, totalMouseMovement := d }

/-- A grid with one notification already scheduled and one event already raised. -/
def exampleBusy : Grid :=
  { columns := [rowHeaderCol 9, dataCol 1, dataCol 2, dataCol 3]
    rowHeaderColumns := [rowHeaderCol 9]
    orderCache := [dataCol 1, dataCol 2, dataCol 3]
    refreshQueued := 4
    timeouts := [⟨dataCol 3, 3, 2⟩]
    raised := [⟨dataCol 1, 1, 2⟩] }

/-- The closure variables after an earlier drag of the column named 2: `moveOccurred` is set
and a displacement is left over. -/
def exampleAfterDrag : DragVars :=
  { colName := 2, moveOccurred := true, totalMouseMovement := some (-150),
    previousMouseX := 40, oldMouseMovement := -150 }

/-- A cache that names a column no longer in the grid and is longer than the column array. -/
def exampleStaleCache : Grid :=
  { columns := [dataCol 1, dataCol 2]
    orderCache := [dataCol 5, dataCol 2, dataCol 6, dataCol 7, dataCol 1] }

/-! ## Slot translation (`findPositionForRenderIndex`) -/

theorem countP_slot_add (l : List Column) :
    l.countP isSlotColumn + l.countP isHiddenOrRowHeader = l.length := by
  induction l with
  | nil => rfl
  | cons c l ih =>
    simp only [List.countP_cons, isSlotColumn, List.length_cons]
    by_cases hc : isHiddenOrRowHeader c = true
    · simp [hc]; omega
    · simp [hc]; omega

theorem movableCount_eq (l : List Column) :
    movableCount l = (l.countP isSlotColumn : Int) := by
  have := countP_slot_add l
  unfold movableCount
  omega

theorem exists_slot (l : List Column) :
    ∀ k, k < l.countP isSlotColumn → ∃ i, i < l.length ∧ IsSlot l k i := by
  induction l with
  | nil => intro k h; simp at h
  | cons c l ih =>
    intro k h
    by_cases hc : isHiddenOrRowHeader c = true
    · have h1 : k < l.countP isSlotColumn := by
        simpa [List.countP_cons, isSlotColumn, hc] using h
      obtain ⟨i, hi, ⟨c1, hc1, hq⟩, hcnt⟩ := ih k h1
      refine ⟨i + 1, by simpa using hi, ⟨c1, by simpa using hc1, hq⟩, ?_⟩
      simpa [List.countP_cons, isSlotColumn, hc] using hcnt
    · have hc0 : isHiddenOrRowHeader c = false := by simpa using hc
      cases k with
      | zero => exact ⟨0, by simp, ⟨c, by simp, hc0⟩, by simp⟩
      | succ k =>
        have h1 : k < l.countP isSlotColumn := by
          simpa [List.countP_cons, isSlotColumn, hc0] using h
        obtain ⟨i, hi, ⟨c1, hc1, hq⟩, hcnt⟩ := ih k h1
        refine ⟨i + 1, by simpa using hi, ⟨c1, by simpa using hc1, hq⟩, ?_⟩
        simpa [List.countP_cons, isSlotColumn, hc0] using hcnt

theorem countP_take_le (p : Column → Bool) (l : List Column) {i j : Nat} (h : i ≤ j) :
    (l.take i).countP p ≤ (l.take j).countP p :=
  List.Sublist.countP_le _ (List.take_sublist_take_left _ h)

theorem findLoop_slot (columns : List Column) (k T : Nat) (hs : IsSlot columns k T) :
    ∀ n i fuel, i + n = T + 1 → n + 1 ≤ fuel →
      findLoop columns fuel i ((k : Int) + ((columns.take i).countP isHiddenOrRowHeader : Int))
        = some (T : Int) := by
  obtain ⟨⟨cT, hcT, hqT⟩, hcnt⟩ := hs
  have hTlen : T < columns.length := by
    rcases Nat.lt_or_ge T columns.length with h | h
    · exact h
    · rw [List.getElem?_eq_none h] at hcT; cases hcT
  intro n
  induction n with
  | zero =>
    intro i fuel hi hf
    obtain ⟨fuel, rfl⟩ : ∃ f, fuel = f + 1 := ⟨fuel - 1, by omega⟩
    have hi1 : i = T + 1 := by omega
    subst hi1
    have h1 : (columns.take (T + 1)).countP isHiddenOrRowHeader
        = (columns.take T).countP isHiddenOrRowHeader := by
      rw [List.take_succ, hcT]; simp [List.countP_append, hqT]
    have h2 := countP_slot_add (columns.take T)
    have h3 : (columns.take T).length = T := by simp; omega
    rw [h1]
    unfold findLoop
    rw [if_neg (by omega)]
    congr 1; omega
  | succ n ih =>
    intro i fuel hi hf
    obtain ⟨fuel, rfl⟩ : ∃ f, fuel = f + 1 := ⟨fuel - 1, by omega⟩
    have hiT : i ≤ T := by omega
    have h2 := countP_slot_add (columns.take i)
    have h3 : (columns.take i).length = i := by simp; omega
    have h4 := countP_take_le isSlotColumn columns hiT
    unfold findLoop
    rw [if_pos (by omega)]
    have hilen : i < columns.length := by omega
    rw [List.getElem?_eq_getElem hilen]
    have h5 : (columns.take (i + 1)).countP isHiddenOrRowHeader
        = (columns.take i).countP isHiddenOrRowHeader
          + (if isHiddenOrRowHeader columns[i] then 1 else 0) := by
      rw [List.take_succ, List.getElem?_eq_getElem hilen]
      simp only [Option.toList, List.countP_append, List.countP_cons, List.countP_nil, Nat.zero_add]
    have := ih (i + 1) fuel (by omega) (by omega)
    by_cases hq : isHiddenOrRowHeader columns[i] = true
    · simp only [hq, if_true] at h5 ⊢
      rw [h5] at this
      rw [← this]; congr 1
    · simp only [hq] at h5 ⊢
      rw [h5] at this
      simpa using this

theorem findLoop_isSome (columns : List Column) :
    ∀ (fuel i : Nat) (position : Int),
      (position + 1 - (i : Int)).toNat + (columns.length - i) + 1 ≤ fuel →
      (findLoop columns fuel i position).isSome = true := by
  intro fuel
  induction fuel with
  | zero => intro i position h; omega
  | succ fuel ih =>
    intro i position h
    unfold findLoop
    by_cases hle : (i : Int) ≤ position
    · rw [if_pos hle]
      rcases Nat.lt_or_ge i columns.length with hi | hi
      · rw [List.getElem?_eq_getElem hi]
        by_cases hq : isHiddenOrRowHeader columns[i] = true
        · simp only [hq, if_true]
          exact ih _ _ (by omega)
        · simp only [hq]
          exact ih _ _ (by omega)
      · rw [List.getElem?_eq_none hi]
        exact ih _ _ (by omega)
    · rw [if_neg hle]; rfl

/-- The loop of `findPositionForRenderIndex` terminates for every index. -/
theorem findPositionForRenderIndex_total (columns : List Column) (index : Int) :
    (findPositionForRenderIndex columns index).isSome = true := by
  unfold findPositionForRenderIndex
  exact findLoop_isSome columns _ 0 index (by omega)

theorem findPositionForRenderIndex_slot (columns : List Column) (k : Nat)
    (hk : (k : Int) < movableCount columns) :
    ∃ i : Nat, i < columns.length ∧ IsSlot columns k i ∧
      findPositionForRenderIndex columns (k : Int) = some (i : Int) := by
  rw [movableCount_eq] at hk
  obtain ⟨T, hT, hs⟩ := exists_slot columns k (by exact_mod_cast hk)
  refine ⟨T, hT, hs, ?_⟩
  have := findLoop_slot columns k T hs (T + 1) 0 ((k : Int).toNat + columns.length + 2)
    (by omega) (by omega)
  simpa [findPositionForRenderIndex] using this

/-- Past the range check, `moveColumn` is `redrawColumnAtPosition` on the two translated
positions. -/
theorem moveColumn_of_find (grid : Grid) (a b i j : Int)
    (haM : a < movableCount grid.columns) (hbM : b < movableCount grid.columns)
    (hfi : findPositionForRenderIndex grid.columns a = some i)
    (hfj : findPositionForRenderIndex grid.columns b = some j) :
    moveColumn grid a b = redrawColumnAtPosition grid i j := by
  unfold moveColumn
  rw [if_neg (by omega), hfi, hfj]

/-- C1: for valid slots `a` and `b` (both in `[0, M)`, `M` the number of columns that are
neither hidden through `colDef.visible` nor row headers), `findPositionForRenderIndex`
returns for each slot an absolute index below `columns.length` whose column is itself a slot
column and has exactly that many slot columns before it, and `moveColumn a b` is the call of
`redrawColumnAtPosition` on these two absolute indices. -/
theorem moveColumn_translates_slots (grid : Grid) (a b : Int)
    (ha0 : 0 ≤ a) (haM : a < movableCount grid.columns)
    (hb0 : 0 ≤ b) (hbM : b < movableCount grid.columns) :
    ∃ i j : Nat,
      findPositionForRenderIndex grid.columns a = some (i : Int) ∧
      findPositionForRenderIndex grid.columns b = some (j : Int) ∧
      i < grid.columns.length ∧ j < grid.columns.length ∧
      IsSlot grid.columns a.toNat i ∧ IsSlot grid.columns b.toNat j ∧
      moveColumn grid a b = redrawColumnAtPosition grid (i : Int) (j : Int) := by
  obtain ⟨ka, rfl⟩ := Int.eq_ofNat_of_zero_le ha0
  obtain ⟨kb, rfl⟩ := Int.eq_ofNat_of_zero_le hb0
  obtain ⟨i, hi, hsi, hfi⟩ := findPositionForRenderIndex_slot grid.columns ka haM
  obtain ⟨j, hj, hsj, hfj⟩ := findPositionForRenderIndex_slot grid.columns kb hbM
  exact ⟨i, j, hfi, hfj, hi, hj, by simpa using hsi, by simpa using hsj,
    moveColumn_of_find grid _ _ _ _ haM hbM hfi hfj⟩

theorem moveColumn_translates_slots_witness :
    ∃ i j : Nat,
      findPositionForRenderIndex exampleHidden.columns 0 = some (i : Int) ∧
      findPositionForRenderIndex exampleHidden.columns 1 = some (j : Int) ∧
      i < exampleHidden.columns.length ∧ j < exampleHidden.columns.length ∧
      IsSlot exampleHidden.columns (0 : Int).toNat i ∧
      IsSlot exampleHidden.columns (1 : Int).toNat j ∧
      moveColumn exampleHidden 0 1 = redrawColumnAtPosition exampleHidden (i : Int) (j : Int) :=
  moveColumn_translates_slots exampleHidden 0 1 (by decide) (by decide) (by decide) (by decide)

/-! ## The absolute-index mover (`redrawColumnAtPosition`) -/

@[simp] theorem colAt_natCast (columns : List Column) (n : Nat) :
    colAt columns (n : Int) = columns[n]? := by
  unfold colAt
  rw [if_neg (by omega)]
  simp

theorem colAt_neg (columns : List Column) (i : Int) (h : i < 0) : colAt columns i = none := by
  unfold colAt; rw [if_pos h]

theorem storeAt_natCast (columns : List Column) (n : Nat) (c : Column)
    (h : n < columns.length) :
    storeAt columns (n : Int) (some c) = .ok (columns.set n c) := by
  unfold storeAt
  simp only []
  rw [if_pos ⟨by omega, by omega⟩]
  simp

theorem scanVisible_true (columns : List Column) :
    ∀ (n lo : Nat), lo + n ≤ columns.length →
      (∃ i c, lo ≤ i ∧ i < lo + n ∧ columns[i]? = some c ∧ c.visible = true) →
      scanVisible columns (lo : Int) n = .ok true := by
  intro n
  induction n with
  | zero => rintro lo _ ⟨i, c, h1, h2, _⟩; omega
  | succ n ih =>
    rintro lo hlen ⟨i, c, h1, h2, hc, hv⟩
    unfold scanVisible
    have hlo : lo < columns.length := by omega
    rw [colAt_natCast, List.getElem?_eq_getElem hlo]
    by_cases hvis : columns[lo].visible = true
    · simp [hvis]
    · simp only [hvis]
      have hne : i ≠ lo := by
        rintro rfl
        rw [List.getElem?_eq_getElem hlo] at hc
        cases hc; exact hvis hv
      have := ih (lo + 1) (by omega) ⟨i, c, by omega, by omega, hc, hv⟩
      simpa using this

theorem scanVisible_false (columns : List Column) :
    ∀ (n lo : Nat), lo + n ≤ columns.length →
      (∀ i c, lo ≤ i → i < lo + n → columns[i]? = some c → c.visible = false) →
      scanVisible columns (lo : Int) n = .ok false := by
  intro n
  induction n with
  | zero => intro lo _ _; rfl
  | succ n ih =>
    intro lo hlen hall
    unfold scanVisible
    have hlo : lo < columns.length := by omega
    rw [colAt_natCast, List.getElem?_eq_getElem hlo]
    have hv := hall lo columns[lo] (by omega) (by omega) (List.getElem?_eq_getElem hlo)
    simp only [hv]
    have := ih (lo + 1) (by omega) (fun i c h1 h2 => hall i c (by omega) (by omega))
    simpa using this

theorem shiftLeft_spec :
    ∀ (n : Nat) (columns : List Column) (i : Nat), i + n < columns.length →
      ∃ r, shiftLeft columns (i : Int) n = .ok r ∧ r.length = columns.length ∧
        ∀ j, r[j]? = if i ≤ j ∧ j < i + n then columns[j + 1]? else columns[j]? := by
  intro n
  induction n with
  | zero => intro columns i _; exact ⟨columns, rfl, rfl, fun j => by rw [if_neg (by omega)]⟩
  | succ n ih =>
    intro columns i h
    unfold shiftLeft
    have h1 : colAt columns ((i : Int) + 1) = some columns[i + 1] := by
      have : ((i : Int) + 1) = ((i + 1 : Nat) : Int) := by push_cast; rfl
      rw [this, colAt_natCast, List.getElem?_eq_getElem]
    rw [h1, storeAt_natCast _ _ _ (by omega)]
    simp only []
    obtain ⟨r, hr, hlen, hget⟩ := ih (columns.set i columns[i + 1]) (i + 1) (by simpa using by omega)
    refine ⟨r, by simpa using hr, by simpa using hlen, fun j => ?_⟩
    rw [hget j]
    simp only [List.getElem?_set]
    by_cases hj : i = j
    · subst hj
      rw [if_neg (by omega), if_pos rfl, if_pos (by omega), if_pos (by omega),
        List.getElem?_eq_getElem]
    · by_cases hj2 : i + 1 ≤ j ∧ j < i + 1 + n
      · rw [if_pos hj2, if_neg (by omega), if_pos (by omega)]
      · rw [if_neg hj2, if_neg hj, if_neg (by omega)]

theorem shiftRight_spec :
    ∀ (n : Nat) (columns : List Column) (i : Nat), n ≤ i → i < columns.length →
      ∃ r, shiftRight columns (i : Int) n = .ok r ∧ r.length = columns.length ∧
        ∀ j, r[j]? = if i - n < j ∧ j ≤ i then columns[j - 1]? else columns[j]? := by
  intro n
  induction n with
  | zero => intro columns i _ _; exact ⟨columns, rfl, rfl, fun j => by rw [if_neg (by omega)]⟩
  | succ n ih =>
    intro columns i hn h
    unfold shiftRight
    have h1 : colAt columns ((i : Int) - 1) = some columns[i - 1] := by
      have : ((i : Int) - 1) = ((i - 1 : Nat) : Int) := by omega
      rw [this, colAt_natCast, List.getElem?_eq_getElem]
    rw [h1, storeAt_natCast _ _ _ (by omega)]
    simp only []
    obtain ⟨r, hr, hlen, hget⟩ := ih (columns.set i columns[i - 1]) (i - 1) (by omega)
      (by simpa using by omega)
    have hc : ((i : Int) - 1) = ((i - 1 : Nat) : Int) := by omega
    refine ⟨r, by rw [hc]; exact hr, by simpa using hlen, fun j => ?_⟩
    rw [hget j]
    simp only [List.getElem?_set]
    by_cases hj : i = j
    · subst hj
      rw [if_neg (by omega), if_pos rfl, if_pos (by omega), if_pos (by omega),
        List.getElem?_eq_getElem]
    · by_cases hj2 : i - 1 - n < j ∧ j ≤ i - 1
      · rw [if_pos hj2, if_neg (by omega), if_pos (by omega)]
      · rw [if_neg hj2, if_neg hj, if_neg (by omega)]


theorem movedColumns_length (columns : List Column) (a b : Nat)
    (ha : a < columns.length) (hb : b < columns.length) :
    (movedColumns columns a b).length = columns.length := by
  unfold movedColumns spliceIn spliceOut
  rw [List.getElem?_eq_getElem ha]
  simp only [List.length_append, List.length_take, List.length_drop, List.length_cons]
  omega

theorem movedColumns_getElem? (columns : List Column) (a b : Nat)
    (ha : a < columns.length) (hb : b < columns.length) (j : Nat) :
    (movedColumns columns a b)[j]? =
      if j = b then columns[a]?
      else if a ≤ j ∧ j < b then columns[j + 1]?
      else if b < j ∧ j ≤ a then columns[j - 1]?
      else columns[j]? := by
  unfold movedColumns spliceIn spliceOut
  rw [List.getElem?_eq_getElem ha]
  simp only [List.getElem?_append, List.getElem?_cons, List.getElem?_take, List.getElem?_drop,
    List.length_take, List.length_append, List.length_drop]
  have e1 : a ⊓ columns.length = a := by omega
  have e2 : b ⊓ (a + (columns.length - (a + 1))) = b := by omega
  simp only [e1, e2]
  split_ifs <;> first
    | rfl
    | (exfalso; omega)
    | (congr 1; omega)


theorem shiftColumns_spec (columns : List Column) (a b : Nat)
    (ha : a < columns.length) (hb : b < columns.length) (hab : a ≠ b) :
    shiftColumns columns columns[a] (a : Int) (b : Int) = .ok (movedColumns columns a b) := by
  unfold shiftColumns
  rcases Nat.lt_or_gt_of_ne hab with h | h
  · rw [if_neg (by omega), if_pos (by omega)]
    have hn : ((b : Int) - (a : Int)).toNat = b - a := by omega
    obtain ⟨r, hr, hlen, hget⟩ := shiftLeft_spec (b - a) columns a (by omega)
    rw [hn, hr]
    simp only []
    rw [storeAt_natCast _ _ _ (by omega)]
    congr 1
    apply List.ext_getElem?
    intro j
    rw [movedColumns_getElem? columns a b ha hb, List.getElem?_set, hget]
    have hbr : b < r.length := by omega
    split_ifs <;> first
      | rfl
      | (exfalso; omega)
      | (rw [List.getElem?_eq_getElem ha])
  · rw [if_pos (by omega)]
    have hn : ((a : Int) - (b : Int)).toNat = a - b := by omega
    obtain ⟨r, hr, hlen, hget⟩ := shiftRight_spec (a - b) columns a (by omega) ha
    rw [hn, hr]
    simp only []
    rw [storeAt_natCast _ _ _ (by omega)]
    congr 1
    apply List.ext_getElem?
    intro j
    rw [movedColumns_getElem? columns a b ha hb, List.getElem?_set, hget]
    have hbr : b < r.length := by omega
    split_ifs <;> first
      | rfl
      | (exfalso; omega)
      | (rw [List.getElem?_eq_getElem ha])

theorem redraw_guard (columns : List Column) (a b : Nat)
    (ha : a < columns.length) (hb : b < columns.length) (hab : a ≠ b) :
    let pos : Int := if (a : Int) < (b : Int) then (a : Int) + 1 else (a : Int) - 1
    (VisibleInGuardRange columns a b →
      scanVisible columns (min pos b) (max pos b - min pos b + 1).toNat = .ok true) ∧
    (¬ VisibleInGuardRange columns a b →
      scanVisible columns (min pos b) (max pos b - min pos b + 1).toNat = .ok false) := by
  intro pos
  rcases Nat.lt_or_gt_of_ne hab with h | h
  · have hpos : pos = ((a + 1 : Nat) : Int) := by
      simp only [pos]; rw [if_pos (by omega)]; push_cast; rfl
    have hmin : min pos (b : Int) = ((a + 1 : Nat) : Int) := by rw [hpos]; omega
    have hmax : max pos (b : Int) = (b : Int) := by rw [hpos]; omega
    have hn : ((b : Int) - ((a + 1 : Nat) : Int) + 1).toNat = b - a := by omega
    rw [hmin, hmax, hn]
    constructor
    · rintro ⟨i, c, hi, hc, hv⟩
      exact scanVisible_true columns _ _ (by omega) ⟨i, c, by omega, by omega, hc, hv⟩
    · intro hno
      refine scanVisible_false columns _ _ (by omega) (fun i c h1 h2 hc => ?_)
      by_contra hv
      exact hno ⟨i, c, Or.inl ⟨by omega, by omega⟩, hc, by simpa using hv⟩
  · have hpos : pos = ((a - 1 : Nat) : Int) := by
      simp only [pos]; rw [if_neg (by omega)]; omega
    have hmin : min pos (b : Int) = (b : Int) := by rw [hpos]; omega
    have hmax : max pos (b : Int) = ((a - 1 : Nat) : Int) := by rw [hpos]; omega
    have hn : (((a - 1 : Nat) : Int) - (b : Int) + 1).toNat = a - b := by omega
    rw [hmin, hmax, hn]
    constructor
    · rintro ⟨i, c, hi, hc, hv⟩
      exact scanVisible_true columns _ _ (by omega) ⟨i, c, by omega, by omega, hc, hv⟩
    · intro hno
      refine scanVisible_false columns _ _ (by omega) (fun i c h1 h2 hc => ?_)
      by_contra hv
      exact hno ⟨i, c, Or.inr ⟨by omega, by omega⟩, hc, by simpa using hv⟩

theorem redraw_commit (grid : Grid) (a b : Nat)
    (ha : a < grid.columns.length) (hb : b < grid.columns.length)
    (h : Commits grid.columns a b) :
    redrawColumnAtPosition grid (a : Int) (b : Int) =
      .ok (commitMove grid (movedColumns grid.columns a b) grid.columns[a] (a : Int) (b : Int)) := by
  obtain ⟨hab, hvis, c, hc, hmov⟩ := h
  rw [List.getElem?_eq_getElem ha] at hc
  cases hc
  unfold redrawColumnAtPosition
  rw [if_neg (by omega)]
  simp only []
  rw [(redraw_guard grid.columns a b ha hb hab).1 hvis]
  simp only [colAt_natCast, List.getElem?_eq_getElem ha, hmov, if_true]
  rw [shiftColumns_spec grid.columns a b ha hb hab]

theorem redraw_noop (grid : Grid) (a b : Nat)
    (ha : a < grid.columns.length) (hb : b < grid.columns.length)
    (h : ¬ Commits grid.columns a b) :
    redrawColumnAtPosition grid (a : Int) (b : Int) = .ok grid := by
  unfold redrawColumnAtPosition
  by_cases hab : a = b
  · rw [if_pos (by omega)]
  rw [if_neg (by omega)]
  simp only []
  by_cases hvis : VisibleInGuardRange grid.columns a b
  · rw [(redraw_guard grid.columns a b ha hb hab).1 hvis]
    simp only [colAt_natCast, List.getElem?_eq_getElem ha]
    have hmov : grid.columns[a].enableColumnMoving = false := by
      by_contra hm
      exact h ⟨hab, hvis, grid.columns[a], List.getElem?_eq_getElem ha, by simpa using hm⟩
    simp [hmov]
  · rw [(redraw_guard grid.columns a b ha hb hab).2 hvis]

/-- C2: when `redrawColumnAtPosition` commits for in-range indices `a ≠ b`, the new column
array is the old one with the column at `a` removed and reinserted at `b`: it has the same
length, holds the old column `a` at `b`, the old `i + 1` at every `a ≤ i < b`, the old `i - 1`
at every `b < i ≤ a`, and is unchanged outside `[min a b, max a b]`.  In particular moving
index 0 to index 2 among three columns gives `[old1, old2, old0]`. -/
theorem redrawColumnAtPosition_moves (grid : Grid) (a b : Nat)
    (ha : a < grid.columns.length) (hb : b < grid.columns.length)
    (h : Commits grid.columns a b) :
    ∃ g, redrawColumnAtPosition grid (a : Int) (b : Int) = .ok g ∧
      g.columns.length = grid.columns.length ∧
      g.columns[b]? = grid.columns[a]? ∧
      (∀ i, a ≤ i → i < b → g.columns[i]? = grid.columns[i + 1]?) ∧
      (∀ i, b < i → i ≤ a → g.columns[i]? = grid.columns[i - 1]?) ∧
      (∀ i, i < min a b ∨ max a b < i → g.columns[i]? = grid.columns[i]?) ∧
      (∀ c0 c1 c2, grid.columns = [c0, c1, c2] → a = 0 → b = 2 → g.columns = [c1, c2, c0]) := by
  refine ⟨_, redraw_commit grid a b ha hb h, ?_, ?_, ?_, ?_, ?_, ?_⟩
  · exact movedColumns_length grid.columns a b ha hb
  · show (movedColumns grid.columns a b)[b]? = _
    rw [movedColumns_getElem? _ _ _ ha hb, if_pos rfl]
  · intro i h1 h2
    show (movedColumns grid.columns a b)[i]? = _
    rw [movedColumns_getElem? _ _ _ ha hb, if_neg (by omega), if_pos ⟨h1, h2⟩]
  · intro i h1 h2
    show (movedColumns grid.columns a b)[i]? = _
    rw [movedColumns_getElem? _ _ _ ha hb, if_neg (by omega), if_neg (by omega),
      if_pos ⟨h1, h2⟩]
  · intro i hi
    show (movedColumns grid.columns a b)[i]? = _
    rw [movedColumns_getElem? _ _ _ ha hb, if_neg (by omega), if_neg (by omega),
      if_neg (by omega)]
  · intro c0 c1 c2 hc h0 h2
    show movedColumns grid.columns a b = _
    rw [hc, h0, h2]
    rfl

theorem redrawColumnAtPosition_moves_witness :
    ∃ g, redrawColumnAtPosition exampleThree ((0 : Nat) : Int) ((2 : Nat) : Int) = .ok g ∧
      g.columns.length = exampleThree.columns.length ∧
      g.columns[2]? = exampleThree.columns[0]? ∧
      (∀ i, 0 ≤ i → i < 2 → g.columns[i]? = exampleThree.columns[i + 1]?) ∧
      (∀ i, 2 < i → i ≤ 0 → g.columns[i]? = exampleThree.columns[i - 1]?) ∧
      (∀ i, i < min 0 2 ∨ max 0 2 < i → g.columns[i]? = exampleThree.columns[i]?) ∧
      (∀ c0 c1 c2, exampleThree.columns = [c0, c1, c2] → 0 = 0 → 2 = 2 →
        g.columns = [c1, c2, c0]) :=
  redrawColumnAtPosition_moves exampleThree 0 2 (by decide) (by decide)
    ⟨by decide, ⟨1, dataCol 1, Or.inl ⟨by decide, by decide⟩, rfl, rfl⟩, ⟨dataCol 0, rfl, rfl⟩⟩

/-- Slots at or above the slot count are rejected: the error is logged and nothing else
changes. -/
theorem moveColumn_rejects_large (grid : Grid) (a b : Int)
    (h : movableCount grid.columns ≤ a ∨ movableCount grid.columns ≤ b) :
    moveColumn grid a b =
      .ok { grid with errorLog := grid.errorLog ++ [LogMsg.invalidPositions] } := by
  unfold moveColumn
  rw [if_pos (by omega)]

/-- C4 (failing input): on a grid with one visible data column, `moveColumn (-1) 0` passes
the range check, although slot `-1` lies outside `[0, 1)`, and ends in a `TypeError`; for
`moveColumn (-1) (-1)` nothing is logged either. -/
theorem moveColumn_negative_slot_throws :
    movableCount exampleOne.columns = 1 ∧
    moveColumn exampleOne (-1) 0 = .error Fault.typeError ∧
    moveColumn exampleOne 0 (-1) = .error Fault.typeError ∧
    moveColumn exampleOne (-1) (-1) = .ok exampleOne := by
  refine ⟨by decide, rfl, rfl, rfl⟩

/-- C5: for in-range indices, `redrawColumnAtPosition` commits exactly when `a ≠ b`, some column
in the guard range (`(a, b]` or `[b, a)`) has `visible` true and the column at `a` has
`enableColumnMoving` true.  A commit replaces the columns, overwrites the order cache with
the data columns of the new array, queues one refresh and schedules one notification; in
every other case the grid (columns, order cache, refresh count, scheduled notifications) is
returned unchanged.  In particular `moveColumn s s` for a valid slot `s` changes nothing. -/
theorem redrawColumnAtPosition_commits_iff (grid : Grid) (a b : Nat)
    (ha : a < grid.columns.length) (hb : b < grid.columns.length) :
    (Commits grid.columns a b →
      ∃ g c, redrawColumnAtPosition grid (a : Int) (b : Int) = .ok g ∧
        grid.columns[a]? = some c ∧
        g.columns = movedColumns grid.columns a b ∧
        g.orderCache = getOnlyDataColumns g.columns ∧
        g.refreshQueued = grid.refreshQueued + 1 ∧
        g.timeouts = grid.timeouts ++ [⟨c, (a : Int), (b : Int)⟩] ∧
        g ≠ grid) ∧
    (¬ Commits grid.columns a b →
      redrawColumnAtPosition grid (a : Int) (b : Int) = .ok grid) ∧
    (∀ s : Int, 0 ≤ s → s < movableCount grid.columns → moveColumn grid s s = .ok grid) := by
  refine ⟨fun h => ?_, redraw_noop grid a b ha hb, fun s h0 hM => ?_⟩
  · refine ⟨_, grid.columns[a], redraw_commit grid a b ha hb h, List.getElem?_eq_getElem ha,
      rfl, rfl, rfl, rfl, ?_⟩
    intro heq
    have := congrArg Grid.refreshQueued heq
    simp [commitMove, updateColumnCache] at this
  · obtain ⟨k, rfl⟩ := Int.eq_ofNat_of_zero_le h0
    obtain ⟨i, -, -, hfi⟩ := findPositionForRenderIndex_slot grid.columns k hM
    rw [moveColumn_of_find grid _ _ _ _ hM hM hfi hfi]
    unfold redrawColumnAtPosition
    rw [if_pos rfl]

theorem redrawColumnAtPosition_commits_iff_witness :
    (Commits exampleHidden.columns 0 2 →
      ∃ g c, redrawColumnAtPosition exampleHidden ((0 : Nat) : Int) ((2 : Nat) : Int) = .ok g ∧
        exampleHidden.columns[0]? = some c ∧
        g.columns = movedColumns exampleHidden.columns 0 2 ∧
        g.orderCache = getOnlyDataColumns g.columns ∧
        g.refreshQueued = exampleHidden.refreshQueued + 1 ∧
        g.timeouts = exampleHidden.timeouts ++ [⟨c, ((0 : Nat) : Int), ((2 : Nat) : Int)⟩] ∧
        g ≠ exampleHidden) ∧
    (¬ Commits exampleHidden.columns 0 2 →
      redrawColumnAtPosition exampleHidden ((0 : Nat) : Int) ((2 : Nat) : Int)
        = .ok exampleHidden) ∧
    (∀ s : Int, 0 ≤ s → s < movableCount exampleHidden.columns →
      moveColumn exampleHidden s s = .ok exampleHidden) :=
  redrawColumnAtPosition_commits_iff exampleHidden 0 2 (by decide) (by decide)

/-- C6 (as stated, refuted): in `[data 0, hidden 1, data 2]` the only column strictly between
indices 0 and 2 is invisible, yet `redrawColumnAtPosition 0 2` moves the column, because the
guard also looks at the column at the target index. -/
theorem redraw_invisible_between_counterexample :
    (∀ i c, 0 < i → i < 2 → exampleHidden.columns[i]? = some c → c.visible = false) ∧
    (∃ i, 0 < i ∧ i < 2) ∧
    ∃ g, redrawColumnAtPosition exampleHidden 0 2 = .ok g ∧
      g.columns = [hiddenCol 1, dataCol 2, dataCol 0] ∧ g.columns ≠ exampleHidden.columns := by
  refine ⟨fun i c h1 h2 hc => ?_, ⟨1, by decide, by decide⟩, _, rfl, rfl, by decide⟩
  have hi : i = 1 := by omega
  subst hi
  cases hc
  rfl

/-- C6 (amended): for in-range indices, if every column strictly between `a` and `b` is
invisible and the column at `b` is invisible as well (that is, every column in the guard range
`(a, b]` or `[b, a)`), then `redrawColumnAtPosition a b` returns the grid unchanged.  If
`a ≠ b`, the column at `b` is visible and the column at `a` has `enableColumnMoving` true,
the move is carried out, whatever lies between the two. -/
theorem redrawColumnAtPosition_invisible_range (grid : Grid) (a b : Nat)
    (ha : a < grid.columns.length) (hb : b < grid.columns.length) :
    ((∀ i c, (a < i ∧ i ≤ b) ∨ (b ≤ i ∧ i < a) → grid.columns[i]? = some c →
        c.visible = false) →
      redrawColumnAtPosition grid (a : Int) (b : Int) = .ok grid) ∧
    (∀ ca cb, a ≠ b → grid.columns[a]? = some ca → ca.enableColumnMoving = true →
      grid.columns[b]? = some cb → cb.visible = true →
      ∃ g, redrawColumnAtPosition grid (a : Int) (b : Int) = .ok g ∧
        g.columns = movedColumns grid.columns a b ∧ g ≠ grid) := by
  constructor
  · intro hinv
    apply redraw_noop grid a b ha hb
    rintro ⟨-, ⟨i, c, hi, hc, hv⟩, -⟩
    rw [hinv i c hi hc] at hv
    cases hv
  · intro ca cb hab hca hmov hcb hvis
    have hcommit : Commits grid.columns a b :=
      ⟨hab, ⟨b, cb, by omega, hcb, hvis⟩, ca, hca, hmov⟩
    refine ⟨_, redraw_commit grid a b ha hb hcommit, rfl, ?_⟩
    intro heq
    have := congrArg Grid.refreshQueued heq
    simp [commitMove, updateColumnCache] at this

theorem redrawColumnAtPosition_invisible_range_witness :
    redrawColumnAtPosition exampleHidden ((2 : Nat) : Int) ((1 : Nat) : Int)
        = .ok exampleHidden ∧
    ∃ g, redrawColumnAtPosition exampleHidden ((0 : Nat) : Int) ((2 : Nat) : Int) = .ok g ∧
      g.columns = movedColumns exampleHidden.columns 0 2 ∧ g ≠ exampleHidden :=
  ⟨(redrawColumnAtPosition_invisible_range exampleHidden 2 1 (by decide) (by decide)).1
      (fun i c hi hc => by
        have h1 : i = 1 := by omega
        subst h1
        cases hc
        rfl),
    (redrawColumnAtPosition_invisible_range exampleHidden 0 2 (by decide) (by decide)).2
      (dataCol 0) (dataCol 2) (by decide) rfl rfl rfl rfl⟩

/-! ## Moving there and back -/

theorem spliceOut_perm (l : List Column) (n : Nat) (c : Column) (hc : l[n]? = some c) :
    l.Perm (c :: spliceOut l n) := by
  have hn : n < l.length := by
    rcases Nat.lt_or_ge n l.length with h | h
    · exact h
    · rw [List.getElem?_eq_none h] at hc; cases hc
  have hsplit : l = l.take n ++ c :: l.drop (n + 1) := by
    rw [List.getElem?_eq_getElem hn] at hc
    cases hc
    conv_lhs => rw [← List.take_append_drop n l]
    rw [List.drop_eq_getElem_cons hn]
  unfold spliceOut
  conv_lhs => rw [hsplit]
  exact List.perm_middle

theorem spliceIn_perm (l : List Column) (n : Nat) (c : Column) :
    (spliceIn l n c).Perm (c :: l) := by
  unfold spliceIn
  refine List.perm_middle.trans ?_
  rw [List.take_append_drop]

theorem movedColumns_perm (l : List Column) (a b : Nat) : (movedColumns l a b).Perm l := by
  unfold movedColumns
  cases hc : l[a]? with
  | none => exact List.Perm.refl _
  | some c =>
    exact (spliceIn_perm _ b c).trans (spliceOut_perm l a c hc).symm

theorem movedColumns_inverse (l : List Column) (a b : Nat)
    (ha : a < l.length) (hb : b < l.length) :
    movedColumns (movedColumns l a b) b a = l := by
  have hlen := movedColumns_length l a b ha hb
  apply List.ext_getElem?
  intro k
  rw [movedColumns_getElem? _ b a (by omega) (by omega)]
  simp only [movedColumns_getElem? l a b ha hb]
  split_ifs <;> first
    | rfl
    | (exfalso; omega)
    | (congr 1; omega)

theorem findLoop_congr (l1 l2 : List Column)
    (h : ∀ k : Nat, (l1[k]?).map isHiddenOrRowHeader = (l2[k]?).map isHiddenOrRowHeader) :
    ∀ (fuel i : Nat) (position : Int),
      findLoop l1 fuel i position = findLoop l2 fuel i position := by
  intro fuel
  induction fuel with
  | zero => intro i position; rfl
  | succ fuel ih =>
    intro i position
    unfold findLoop
    have hi := h i
    cases h1 : l1[i]? with
    | none =>
      cases h2 : l2[i]? with
      | none => simp only [ih]
      | some c2 => rw [h1, h2] at hi; cases hi
    | some c1 =>
      cases h2 : l2[i]? with
      | none => rw [h1, h2] at hi; cases hi
      | some c2 =>
        rw [h1, h2] at hi
        have hq : isHiddenOrRowHeader c1 = isHiddenOrRowHeader c2 := by simpa using hi
        simp only [hq, ih]

theorem slot_flags_congr (l1 l2 : List Column)
    (h : ∀ k : Nat, (l1[k]?).map isHiddenOrRowHeader = (l2[k]?).map isHiddenOrRowHeader) :
    l1.length = l2.length ∧ movableCount l1 = movableCount l2 ∧
      ∀ x, findPositionForRenderIndex l1 x = findPositionForRenderIndex l2 x := by
  have hmap : l1.map isHiddenOrRowHeader = l2.map isHiddenOrRowHeader := by
    apply List.ext_getElem?
    intro k
    simpa using h k
  have hlen : l1.length = l2.length := by
    simpa using congrArg List.length hmap
  have hcnt : l1.countP isHiddenOrRowHeader = l2.countP isHiddenOrRowHeader := by
    have := congrArg (List.countP id) hmap
    simpa [List.countP_map] using this
  refine ⟨hlen, ?_, fun x => ?_⟩
  · unfold movableCount; rw [hlen, hcnt]
  · unfold findPositionForRenderIndex
    rw [hlen]
    exact findLoop_congr l1 l2 h _ _ _


theorem slot_column_of_find (columns : List Column) (k : Nat) (i : Nat)
    (hk : (k : Int) < movableCount columns)
    (hf : findPositionForRenderIndex columns (k : Int) = some (i : Int)) :
    i < columns.length ∧ IsSlot columns k i := by
  obtain ⟨i1, hi1, hs, hf1⟩ := findPositionForRenderIndex_slot columns k hk
  rw [hf] at hf1
  have : i = i1 := by
    have := Option.some.inj hf1
    omega
  subst this
  exact ⟨hi1, hs⟩

theorem movedColumns_flags (l : List Column) (a b : Nat)
    (ha : a < l.length) (hb : b < l.length)
    (hslots : ∀ k c, min a b ≤ k → k ≤ max a b → l[k]? = some c →
      isHiddenOrRowHeader c = false) :
    ∀ k : Nat, ((movedColumns l a b)[k]?).map isHiddenOrRowHeader
      = (l[k]?).map isHiddenOrRowHeader := by
  intro k
  rw [movedColumns_getElem? l a b ha hb]
  by_cases hk : min a b ≤ k ∧ k ≤ max a b
  · have e1 : ∀ m, min a b ≤ m → m ≤ max a b →
        (l[m]?).map isHiddenOrRowHeader = some false := by
      intro m h1 h2
      have hm : m < l.length := by omega
      rw [List.getElem?_eq_getElem hm]
      simp [hslots m l[m] h1 h2 (List.getElem?_eq_getElem hm)]
    rw [e1 k hk.1 hk.2]
    split_ifs
    · exact e1 a (by omega) (by omega)
    · exact e1 (k + 1) (by omega) (by omega)
    · exact e1 (k - 1) (by omega) (by omega)
    · exact e1 k hk.1 hk.2
  · rw [if_neg (by omega), if_neg (by omega), if_neg (by omega)]

theorem commits_back (l : List Column) (a b : Nat)
    (ha : a < l.length) (hb : b < l.length) (h : Commits l a b) :
    Commits (movedColumns l a b) b a := by
  obtain ⟨hab, ⟨k, c, hk, hc, hv⟩, c0, hc0, hm⟩ := h
  refine ⟨fun h => hab h.symm, ?_, c0, ?_, hm⟩
  · rcases hk with hk | hk
    · refine ⟨k - 1, c, Or.inr ⟨by omega, by omega⟩, ?_, hv⟩
      rw [movedColumns_getElem? l a b ha hb, if_neg (by omega), if_pos (by omega), ← hc]
      congr 1; omega
    · refine ⟨k + 1, c, Or.inl ⟨by omega, by omega⟩, ?_, hv⟩
      rw [movedColumns_getElem? l a b ha hb, if_neg (by omega), if_neg (by omega),
        if_pos (by omega), ← hc]
      congr 1
  · rw [movedColumns_getElem? l a b ha hb, if_pos rfl, hc0]

theorem countP_take_succ (p : Column → Bool) (l : List Column) (n : Nat) (c : Column)
    (h : l[n]? = some c) :
    (l.take (n + 1)).countP p = (l.take n).countP p + (if p c = true then 1 else 0) := by
  rw [List.take_succ, h]
  simp [List.countP_append, List.countP_cons]

theorem slot_count_after (l : List Column) (k i n : Nat) (h : IsSlot l k i) (hn : i < n) :
    k + 1 ≤ (l.take n).countP isSlotColumn := by
  obtain ⟨⟨c, hc, hq⟩, hcnt⟩ := h
  have h1 := countP_take_succ isSlotColumn l i c hc
  have h2 : (l.take (i + 1)).countP isSlotColumn ≤ (l.take n).countP isSlotColumn :=
    countP_take_le isSlotColumn l (by omega)
  have h3 : isSlotColumn c = true := by simp [isSlotColumn, hq]
  rw [if_pos h3] at h1
  omega

theorem isSlot_unique (l : List Column) (k i1 i2 : Nat)
    (h1 : IsSlot l k i1) (h2 : IsSlot l k i2) : i1 = i2 := by
  rcases Nat.lt_trichotomy i1 i2 with h | h | h
  · have := slot_count_after l k i1 i2 h1 h
    have := h2.2
    omega
  · exact h
  · have := slot_count_after l k i2 i1 h2 h
    have := h1.2
    omega

theorem find_of_isSlot (l : List Column) (k i : Nat)
    (hk : (k : Int) < movableCount l) (hs : IsSlot l k i) :
    findPositionForRenderIndex l (k : Int) = some (i : Int) := by
  obtain ⟨i1, -, hs1, hf⟩ := findPositionForRenderIndex_slot l k hk
  rw [hf, isSlot_unique l k i1 i hs1 hs]

theorem movedColumns_take_low (l : List Column) (a b n : Nat)
    (ha : a < l.length) (hb : b < l.length) (hna : n ≤ a) (hnb : n ≤ b) :
    (movedColumns l a b).take n = l.take n := by
  apply List.ext_getElem?
  intro k
  rw [List.getElem?_take, List.getElem?_take]
  by_cases hk : k < n
  · rw [if_pos hk, if_pos hk, movedColumns_getElem? l a b ha hb, if_neg (by omega),
      if_neg (by omega), if_neg (by omega)]
  · rw [if_neg hk, if_neg hk]

theorem movedColumns_countP_take_high (p : Column → Bool) (l : List Column) (a b n : Nat)
    (ha : a < l.length) (hb : b < l.length) (hna : a < n) (hnb : b < n) :
    ((movedColumns l a b).take n).countP p = (l.take n).countP p := by
  have hd : (movedColumns l a b).drop n = l.drop n := by
    apply List.ext_getElem?
    intro k
    rw [List.getElem?_drop, List.getElem?_drop, movedColumns_getElem? l a b ha hb,
      if_neg (by omega), if_neg (by omega), if_neg (by omega)]
  have hp := (movedColumns_perm l a b).countP_eq p
  have e1 : (movedColumns l a b).countP p
      = ((movedColumns l a b).take n).countP p + ((movedColumns l a b).drop n).countP p := by
    rw [← List.countP_append, List.take_append_drop]
  have e2 : l.countP p = (l.take n).countP p + (l.drop n).countP p := by
    rw [← List.countP_append, List.take_append_drop]
  rw [hd] at e1
  omega

theorem movableCount_movedColumns (l : List Column) (a b : Nat) :
    movableCount (movedColumns l a b) = movableCount l := by
  rw [movableCount_eq, movableCount_eq, (movedColumns_perm l a b).countP_eq]

/-- After the column at `i` has been moved to `j`, both slot columns: the moved column is
again the slot it was sent to; the place it left holds its old neighbour on the side of `j`;
the number of slot columns before that place is unchanged when `i < j`, and when `j < i` it
is one more unless the neighbour is itself a slot column. -/
theorem movedColumns_slots (l : List Column) (ka kb i j : Nat)
    (hi : IsSlot l ka i) (hj : IsSlot l kb j) (hil : i < l.length) (hjl : j < l.length)
    (hij : i ≠ j) :
    IsSlot (movedColumns l i j) kb j ∧
    (movedColumns l i j)[i]? = l[if i < j then i + 1 else i - 1]? ∧
    (i < j → ((movedColumns l i j).take i).countP isSlotColumn = ka) ∧
    (j < i → ∀ c, l[i - 1]? = some c →
      ((movedColumns l i j).take i).countP isSlotColumn
        + (if isSlotColumn c = true then 1 else 0) = ka + 1) := by
  obtain ⟨⟨ci, hci, hqi⟩, hcnti⟩ := hi
  obtain ⟨⟨cj, hcj, hqj⟩, hcntj⟩ := hj
  have hsi : isSlotColumn ci = true := by simp [isSlotColumn, hqi]
  have hsj : isSlotColumn cj = true := by simp [isSlotColumn, hqj]
  have hmj : (movedColumns l i j)[j]? = some ci := by
    rw [movedColumns_getElem? l i j hil hjl, if_pos rfl, hci]
  have hmi : (movedColumns l i j)[i]? = l[if i < j then i + 1 else i - 1]? := by
    rw [movedColumns_getElem? l i j hil hjl, if_neg hij]
    by_cases h : i < j
    · rw [if_pos ⟨Nat.le_refl i, h⟩, if_pos h]
    · rw [if_neg (by omega), if_pos (by omega), if_neg h]
  refine ⟨⟨⟨ci, hmj, hqi⟩, ?_⟩, hmi, ?_, ?_⟩
  · rcases Nat.lt_or_gt_of_ne hij with h | h
    · have e1 := movedColumns_countP_take_high isSlotColumn l i j (j + 1) hil hjl
        (by omega) (by omega)
      have e2 := countP_take_succ isSlotColumn (movedColumns l i j) j ci hmj
      have e3 := countP_take_succ isSlotColumn l j cj hcj
      rw [if_pos hsi] at e2
      rw [if_pos hsj] at e3
      omega
    · rw [movedColumns_take_low l i j j hil hjl (by omega) (Nat.le_refl j)]
      exact hcntj
  · intro h
    rw [movedColumns_take_low l i j i hil hjl (Nat.le_refl i) (by omega)]
    exact hcnti
  · intro h c hc
    have e1 := movedColumns_countP_take_high isSlotColumn l i j (i + 1) hil hjl
      (by omega) (by omega)
    have e2 := countP_take_succ isSlotColumn (movedColumns l i j) i c (by
      rw [hmi, if_neg (by omega)]; exact hc)
    have e3 := countP_take_succ isSlotColumn l i ci hci
    rw [if_pos hsi] at e3
    omega


theorem mem_flag_ne (l : List Column) (i n : Nat) (ci cn : Column)
    (hci : l[i]? = some ci) (hqi : isHiddenOrRowHeader ci = false)
    (hcn : l[n]? = some cn) (hqn : isHiddenOrRowHeader cn = true) :
    l[i]? ≠ l[n]? := by
  rw [hci, hcn]
  intro h
  cases h
  rw [hqi] at hqn
  cases hqn

/-- C3 (as stated, refuted): when the column next to the first slot on the side of the second
is hidden, and also when the first slot holds a column that cannot be moved, the second call
does not restore the column array. -/
theorem moveColumn_round_trip_counterexample :
    (movableCount exampleHidden.columns = 2 ∧
      ∃ g1 g2, moveColumn exampleHidden 0 1 = .ok g1 ∧ moveColumn g1 1 0 = .ok g2 ∧
        g2.columns = [hiddenCol 1, dataCol 0, dataCol 2] ∧
        g2.columns ≠ exampleHidden.columns) ∧
    (movableCount examplePinnedFirst.columns = 2 ∧
      ∃ g1 g2, moveColumn examplePinnedFirst 0 1 = .ok g1 ∧ moveColumn g1 1 0 = .ok g2 ∧
        g1 = examplePinnedFirst ∧
        g2.columns ≠ examplePinnedFirst.columns) := by
  refine ⟨⟨by decide, _, _, rfl, rfl, rfl, by decide⟩, ⟨by decide, _, _, rfl, rfl, rfl, by decide⟩⟩

/-- C3 (amended): let `a`, `b` be valid slots with absolute indices `i`, `j`.  The calls
`moveColumn a b` and then `moveColumn b a` both return, and
* if the first call commits, the column array after the second call equals the original
  exactly when the column next to `i` on the side of `j` (index `i + 1` when `i < j`,
  `i - 1` when `j < i`) is neither hidden through `colDef.visible` nor a row header;
* if neither the move `i → j` nor the move `j → i` commits, the grid is unchanged;
* if the move `i → j` does not commit and the move `j → i` does, the array ends as the
  original with the column at `j` moved to `i`, which differs from the original when the
  columns are pairwise distinct. -/
theorem moveColumn_round_trip (grid : Grid) (a b : Int) (i j : Nat)
    (ha0 : 0 ≤ a) (haM : a < movableCount grid.columns)
    (hb0 : 0 ≤ b) (hbM : b < movableCount grid.columns)
    (hi : findPositionForRenderIndex grid.columns a = some (i : Int))
    (hj : findPositionForRenderIndex grid.columns b = some (j : Int)) :
    ∃ g1 g2, moveColumn grid a b = .ok g1 ∧ moveColumn g1 b a = .ok g2 ∧
      (Commits grid.columns i j →
        (g2.columns = grid.columns ↔
          ∃ c, grid.columns[if i < j then i + 1 else i - 1]? = some c ∧
            isHiddenOrRowHeader c = false)) ∧
      (¬ Commits grid.columns i j → ¬ Commits grid.columns j i → g2 = grid) ∧
      (¬ Commits grid.columns i j → Commits grid.columns j i →
        g2.columns = movedColumns grid.columns j i ∧
          (grid.columns.Nodup → g2.columns ≠ grid.columns)) := by
  obtain ⟨ka, rfl⟩ := Int.eq_ofNat_of_zero_le ha0
  obtain ⟨kb, rfl⟩ := Int.eq_ofNat_of_zero_le hb0
  obtain ⟨hil, hsi⟩ := slot_column_of_find grid.columns ka i haM hi
  obtain ⟨hjl, hsj⟩ := slot_column_of_find grid.columns kb j hbM hj
  have h1 := moveColumn_of_find grid _ _ _ _ haM hbM hi hj
  have h1r := moveColumn_of_find grid _ _ _ _ hbM haM hj hi
  by_cases hcm : Commits grid.columns i j
  · have hij : i ≠ j := hcm.1
    obtain ⟨hsj1, hmi, hlow, hhigh⟩ := movedColumns_slots grid.columns ka kb i j hsi hsj hil hjl hij
    have hlen := movedColumns_length grid.columns i j hil hjl
    have hM := movableCount_movedColumns grid.columns i j
    let g1 := commitMove grid (movedColumns grid.columns i j) grid.columns[i] (i : Int) (j : Int)
    have hg1 : g1.columns = movedColumns grid.columns i j := rfl
    have hfirst : moveColumn grid (ka : Int) (kb : Int) = .ok g1 := by
      rw [h1]; exact redraw_commit grid i j hil hjl hcm
    have hfj : findPositionForRenderIndex g1.columns (kb : Int) = some (j : Int) := by
      rw [hg1]; exact find_of_isSlot _ kb j (by rw [hM]; exact hbM) hsj1
    obtain ⟨ci, hci, hqi⟩ := hsi.1
    -- the neighbour of `i` on the side of `j`
    have hnlen : (if i < j then i + 1 else i - 1) < grid.columns.length := by
      split_ifs <;> omega
    obtain ⟨cn, hcn⟩ : ∃ cn, grid.columns[if i < j then i + 1 else i - 1]? = some cn :=
      ⟨_, List.getElem?_eq_getElem hnlen⟩
    by_cases hqn : isHiddenOrRowHeader cn = false
    · -- the place left behind is again slot `ka`
      have hsi1 : IsSlot (movedColumns grid.columns i j) ka i := by
        refine ⟨⟨cn, by rw [hmi]; exact hcn, hqn⟩, ?_⟩
        rcases Nat.lt_or_gt_of_ne hij with h | h
        · exact hlow h
        · have hc1 : grid.columns[i - 1]? = some cn := by
            rw [if_neg (by omega)] at hcn; exact hcn
          have := hhigh h cn hc1
          rw [if_pos (by simp [isSlotColumn, hqn])] at this
          omega
      have hfi : findPositionForRenderIndex g1.columns (ka : Int) = some (i : Int) := by
        rw [hg1]; exact find_of_isSlot _ ka i (by rw [hM]; exact haM) hsi1
      have h2 : moveColumn g1 (kb : Int) (ka : Int)
          = redrawColumnAtPosition g1 (j : Int) (i : Int) :=
        moveColumn_of_find g1 _ _ _ _ (by rw [hg1, hM]; exact hbM) (by rw [hg1, hM]; exact haM)
          hfj hfi
      have h3 := redraw_commit g1 j i (by rw [hg1, hlen]; exact hjl) (by rw [hg1, hlen]; exact hil)
        (by rw [hg1]; exact commits_back grid.columns i j hil hjl hcm)
      refine ⟨g1, _, hfirst, by rw [h2]; exact h3, fun _ => ⟨fun _ => ⟨cn, hcn, hqn⟩, fun _ => ?_⟩,
        fun h => absurd hcm h, fun h => absurd hcm h⟩
      show movedColumns g1.columns j i = grid.columns
      rw [hg1]
      exact movedColumns_inverse grid.columns i j hil hjl
    · -- the place left behind holds a hidden or row-header column
      have hqn1 : isHiddenOrRowHeader cn = true := by simpa using hqn
      obtain ⟨i1, hi1l, hsi1, hfi⟩ := findPositionForRenderIndex_slot g1.columns ka
        (by rw [hg1, hM]; exact haM)
      rw [hg1] at hsi1 hi1l
      have hne : i1 ≠ i := by
        intro h
        subst h
        obtain ⟨⟨c1, hc1, hq1⟩, -⟩ := hsi1
        rw [hmi, hcn] at hc1
        cases hc1
        rw [hq1] at hqn1
        cases hqn1
      have hside : (i < j → i < i1) ∧ (j < i → i1 < i) := by
        constructor
        · intro h
          rcases Nat.lt_or_gt_of_ne hne with h2 | h2
          · have := slot_count_after _ ka i1 i hsi1 h2
            have := hlow h
            omega
          · exact h2
        · intro h
          rcases Nat.lt_or_gt_of_ne hne with h2 | h2
          · exact h2
          · have hc1 : grid.columns[i - 1]? = some cn := by
              rw [if_neg (by omega)] at hcn; exact hcn
            have e1 := hhigh h cn hc1
            rw [if_neg (by simp [isSlotColumn, hqn1])] at e1
            have e2 := countP_take_le isSlotColumn (movedColumns grid.columns i j)
              (Nat.le_of_lt h2)
            have := hsi1.2
            omega
      have h2 : moveColumn g1 (kb : Int) (ka : Int)
          = redrawColumnAtPosition g1 (j : Int) (i1 : Int) :=
        moveColumn_of_find g1 _ _ _ _ (by rw [hg1, hM]; exact hbM) (by rw [hg1, hM]; exact haM)
          hfj hfi
      have hdiff : ∀ cols : List Column,
          cols[i]? = (movedColumns grid.columns i j)[i]? → cols ≠ grid.columns := by
        intro cols hcols heq
        rw [heq, hmi] at hcols
        exact mem_flag_ne grid.columns i _ ci cn hci hqi hcn hqn1 hcols
      have hnot : ¬ ∃ c, grid.columns[if i < j then i + 1 else i - 1]? = some c ∧
          isHiddenOrRowHeader c = false := by
        rintro ⟨c, hc, hq⟩
        rw [hcn] at hc
        cases hc
        exact hqn hq
      by_cases hc2 : Commits g1.columns j i1
      · have h3 := redraw_commit g1 j i1 (by rw [hg1, hlen]; exact hjl) (by rw [hg1]; exact hi1l)
          hc2
        refine ⟨g1, _, hfirst, by rw [h2]; exact h3,
          fun _ => ⟨fun h => absurd h ?_, fun h => absurd h hnot⟩,
          fun h => absurd hcm h, fun h => absurd hcm h⟩
        apply hdiff
        show (movedColumns g1.columns j i1)[i]? = _
        rw [hg1, movedColumns_getElem? _ j i1 (by rw [hlen]; exact hjl) hi1l]
        rcases Nat.lt_or_gt_of_ne hij with h | h
        · have := hside.1 h
          rw [if_neg (by omega), if_neg (by omega), if_neg (by omega)]
        · have := hside.2 h
          rw [if_neg (by omega), if_neg (by omega), if_neg (by omega)]
      · have h3 := redraw_noop g1 j i1 (by rw [hg1, hlen]; exact hjl) (by rw [hg1]; exact hi1l)
          hc2
        refine ⟨g1, g1, hfirst, by rw [h2]; exact h3,
          fun _ => ⟨fun h => absurd h ?_, fun h => absurd h hnot⟩,
          fun h => absurd hcm h, fun h => absurd hcm h⟩
        exact hdiff _ (by rw [hg1])
  · have hfirst : moveColumn grid (ka : Int) (kb : Int) = .ok grid := by
      rw [h1]; exact redraw_noop grid i j hil hjl hcm
    by_cases hc2 : Commits grid.columns j i
    · refine ⟨grid, _, hfirst, by rw [h1r]; exact redraw_commit grid j i hjl hil hc2,
        fun h => absurd h hcm, fun _ h => absurd hc2 h, fun _ _ => ⟨rfl, ?_⟩⟩
      intro hnd heq
      have hji : j ≠ i := hc2.1
      have e1 : (movedColumns grid.columns j i)[i]? = grid.columns[j]? := by
        rw [movedColumns_getElem? _ j i hjl hil, if_pos rfl]
      have e2 : grid.columns[i]? = grid.columns[j]? := by
        rw [← e1]
        exact (congrArg (fun l : List Column => l[i]?) heq).symm
      rw [List.getElem?_eq_getElem hil, List.getElem?_eq_getElem hjl] at e2
      exact hji ((List.Nodup.getElem_inj_iff hnd).1 (Option.some.inj e2)).symm
    · refine ⟨grid, grid, hfirst, by rw [h1r]; exact redraw_noop grid j i hjl hil hc2,
        fun h => absurd h hcm, fun _ _ => rfl, fun _ h => absurd h hc2⟩

theorem moveColumn_round_trip_witness :
    ∃ g1 g2, moveColumn exampleHiddenThird 0 2 = .ok g1 ∧
      moveColumn g1 2 0 = .ok g2 ∧ g2.columns = exampleHiddenThird.columns :=
  have hc : Commits exampleHiddenThird.columns 0 3 :=
    ⟨by decide, ⟨1, dataCol 1, Or.inl ⟨by decide, by decide⟩, rfl, rfl⟩, ⟨dataCol 0, rfl, rfl⟩⟩
  match moveColumn_round_trip exampleHiddenThird 0 2 0 3 (by decide) (by decide) (by decide)
      (by decide) rfl rfl with
  | ⟨g1, g2, h1, h2, h3, _⟩ => ⟨g1, g2, h1, h2, (h3 hc).2 ⟨dataCol 1, rfl, rfl⟩⟩

/-! ## The order cache (`updateColumnCache`, `verifyColumnOrder`) -/

theorem indexOf_cons (x : Column) (xs : List Column) (c : Column) :
    indexOf (x :: xs) c = if x = c then some 0 else (indexOf xs c).map (· + 1) := rfl

theorem indexOf_append_of_not_mem (l1 l2 : List Column) (c : Column) (h : c ∉ l1) :
    indexOf (l1 ++ l2) c = (indexOf l2 c).map (· + l1.length) := by
  induction l1 with
  | nil => simp
  | cons x xs ih =>
    have hx : x ≠ c := fun e => h (by simp [e])
    have hxs : c ∉ xs := fun e => h (by simp [e])
    show indexOf (x :: (xs ++ l2)) c = _
    rw [indexOf_cons, if_neg hx, ih hxs, Option.map_map]
    cases indexOf l2 c with
    | none => rfl
    | some m => simp [Nat.add_assoc]

theorem indexOf_cons_self (c : Column) (l : List Column) : indexOf (c :: l) c = some 0 := by
  simp [indexOf]

theorem indexOf_getElem? (l : List Column) (c : Column) (n : Nat)
    (h : indexOf l c = some n) : l[n]? = some c := by
  induction l generalizing n with
  | nil => simp [indexOf] at h
  | cons x xs ih =>
    unfold indexOf at h
    by_cases hx : x = c
    · rw [if_pos hx] at h
      cases h
      simp [hx]
    · rw [if_neg hx] at h
      cases h1 : indexOf xs c with
      | none => rw [h1] at h; cases h
      | some m =>
        rw [h1] at h
        cases h
        simpa using ih m h1

theorem spliceOut_middle (l1 l2 : List Column) (c : Column) :
    spliceOut (l1 ++ c :: l2) l1.length = l1 ++ l2 := by
  unfold spliceOut
  simp

theorem spliceIn_middle (l1 l2 : List Column) (c : Column) :
    spliceIn (l1 ++ l2) l1.length c = l1 ++ c :: l2 := by
  unfold spliceIn
  simp

theorem verifyStep_moves (h idx : Nat) (P s t : List Column) (c : Column)
    (hP : P.length = h + idx) (hcP : c ∉ P) (hcs : c ∉ s) :
    verifyStep h (P ++ (s ++ c :: t)) c idx = P ++ c :: (s ++ t) := by
  have hidx : indexOf (P ++ (s ++ c :: t)) c = some (P.length + s.length) := by
    rw [indexOf_append_of_not_mem _ _ _ hcP, indexOf_append_of_not_mem _ _ _ hcs,
      indexOf_cons_self]
    simp [Nat.add_comm]
  unfold verifyStep
  rw [hidx]
  simp only []
  by_cases hs : s = []
  · subst hs
    rw [if_neg (by simp; omega)]
    simp
  · have hlen : 0 < s.length := List.length_pos.mpr hs
    rw [if_pos (by omega)]
    have e1 : P ++ (s ++ c :: t) = (P ++ s) ++ c :: t := by simp
    have e2 : P.length + s.length = (P ++ s).length := by simp
    rw [e1, e2, List.getElem?_append_right (Nat.le_refl _)]
    simp only [Nat.sub_self, List.getElem?_cons_zero, spliceOut_middle]
    have e3 : idx + h = P.length := by omega
    rw [e3, List.append_assoc, spliceIn_middle]

theorem verifyLoop_sorts (h : Nat) :
    ∀ (cs P rest : List Column) (idx : Nat), P.length = h + idx →
      (∀ c ∈ cs, c ∉ P) → cs.Nodup → rest.Perm cs →
      verifyLoop h (P ++ rest) idx cs = P ++ cs := by
  intro cs
  induction cs with
  | nil =>
    intro P rest idx _ _ _ hperm
    rw [List.Perm.eq_nil hperm]
    rfl
  | cons c cs ih =>
    intro P rest idx hP hdisj hnd hperm
    have hmem : c ∈ rest := hperm.symm.subset (by simp)
    obtain ⟨s, t, rfl⟩ := List.append_of_mem hmem
    have hnd1 : (s ++ c :: t).Nodup := hperm.symm.nodup hnd
    have hcs : c ∉ s := by
      intro hc
      have := (List.nodup_append.mp hnd1).2.2
      exact this hc (List.mem_cons_self c t)
    have hperm1 : (s ++ t).Perm cs :=
      List.Perm.cons_inv ((List.perm_middle.symm).trans hperm)
    unfold verifyLoop
    rw [verifyStep_moves h idx P s t c hP (hdisj c (by simp)) hcs]
    have := ih (P ++ [c]) (s ++ t) (idx + 1) (by simp; omega)
      (by
        intro c1 hc1 hin
        rcases List.mem_append.mp hin with h1 | h1
        · exact hdisj c1 (by simp [hc1]) h1
        · have : c1 = c := by simpa using h1
          subst this
          exact (List.nodup_cons.mp hnd).1 hc1)
      (List.nodup_cons.mp hnd).2 hperm1
    simpa using this


theorem rowHeaderPrefix_split (grid : Grid) (hpre : RowHeaderPrefix grid) :
    (∀ c ∈ grid.columns.take grid.rowHeaderColumns.length, c.isRowHeader = true) ∧
    (∀ c ∈ grid.columns.drop grid.rowHeaderColumns.length, c.isRowHeader = false) ∧
    getOnlyDataColumns grid.columns = grid.columns.drop grid.rowHeaderColumns.length := by
  obtain ⟨hle, hiff⟩ := hpre
  have h1 : ∀ c ∈ grid.columns.take grid.rowHeaderColumns.length, c.isRowHeader = true := by
    intro c hc
    obtain ⟨n, hn⟩ := List.mem_iff_getElem?.mp hc
    rw [List.getElem?_take] at hn
    split at hn
    · rename_i hlt
      exact (hiff n c hn).mpr hlt
    · cases hn
  have h2 : ∀ c ∈ grid.columns.drop grid.rowHeaderColumns.length, c.isRowHeader = false := by
    intro c hc
    obtain ⟨n, hn⟩ := List.mem_iff_getElem?.mp hc
    rw [List.getElem?_drop] at hn
    have := hiff _ c hn
    cases hr : c.isRowHeader with
    | false => rfl
    | true => have := this.mp hr; omega
  refine ⟨h1, h2, ?_⟩
  unfold getOnlyDataColumns
  conv_lhs => rw [← List.take_append_drop grid.rowHeaderColumns.length grid.columns]
  rw [List.filter_append]
  have e1 : (grid.columns.take grid.rowHeaderColumns.length).filter (fun c => !c.isRowHeader)
      = [] := by
    rw [List.filter_eq_nil_iff]
    intro c hc
    simp [h1 c hc]
  have e2 : (grid.columns.drop grid.rowHeaderColumns.length).filter (fun c => !c.isRowHeader)
      = grid.columns.drop grid.rowHeaderColumns.length := by
    rw [List.filter_eq_self]
    intro c hc
    simp [h2 c hc]
  rw [e1, e2, List.nil_append]

theorem verifyLoop_restores (grid : Grid) (hpre : RowHeaderPrefix grid)
    (hnd : grid.orderCache.Nodup)
    (hperm : grid.orderCache.Perm (getOnlyDataColumns grid.columns)) :
    verifyLoop grid.rowHeaderColumns.length grid.columns 0 grid.orderCache
      = grid.columns.take grid.rowHeaderColumns.length ++ grid.orderCache := by
  obtain ⟨h1, h2, h3⟩ := rowHeaderPrefix_split grid hpre
  rw [h3] at hperm
  have := verifyLoop_sorts grid.rowHeaderColumns.length grid.orderCache
    (grid.columns.take grid.rowHeaderColumns.length)
    (grid.columns.drop grid.rowHeaderColumns.length) 0
    (by have := hpre.1; simp; omega)
    (by
      intro c hc hin
      have hc1 := h2 c (hperm.subset hc)
      rw [h1 c hin] at hc1
      cases hc1)
    hnd hperm.symm
  rwa [List.take_append_drop] at this

/-- C7: on a grid whose row headers form a prefix and whose columns are pairwise distinct,
`updateColumnCache` followed by `verifyColumnOrder` changes nothing: the column array, and
the whole grid, is as `updateColumnCache` left it. -/
theorem verifyColumnOrder_after_updateColumnCache (grid : Grid)
    (hpre : RowHeaderPrefix grid) (hnd : grid.columns.Nodup) :
    (verifyColumnOrder (updateColumnCache grid)).columns = grid.columns ∧
    verifyColumnOrder (updateColumnCache grid) = updateColumnCache grid := by
  have hpre1 : RowHeaderPrefix (updateColumnCache grid) := hpre
  obtain ⟨-, -, h3⟩ := rowHeaderPrefix_split grid hpre
  have hcache : (updateColumnCache grid).orderCache
      = grid.columns.drop grid.rowHeaderColumns.length := h3
  have key := verifyLoop_restores (updateColumnCache grid) hpre1
    (by rw [hcache]; exact hnd.sublist (List.drop_sublist _ _))
    (List.Perm.refl _)
  rw [hcache] at key
  have key1 : verifyLoop grid.rowHeaderColumns.length grid.columns 0
        (grid.columns.drop grid.rowHeaderColumns.length)
      = grid.columns.take grid.rowHeaderColumns.length
        ++ grid.columns.drop grid.rowHeaderColumns.length := key
  rw [List.take_append_drop] at key1
  have hcols : (verifyColumnOrder (updateColumnCache grid)).columns = grid.columns := by
    show verifyLoop grid.rowHeaderColumns.length grid.columns 0
      (getOnlyDataColumns grid.columns) = grid.columns
    rw [h3]
    exact key1
  refine ⟨hcols, ?_⟩
  have hrest : verifyColumnOrder (updateColumnCache grid)
      = { updateColumnCache grid with
          columns := (verifyColumnOrder (updateColumnCache grid)).columns } := rfl
  rw [hrest, hcols]
  rfl

theorem verifyColumnOrder_after_updateColumnCache_witness :
    (verifyColumnOrder (updateColumnCache exampleMixed)).columns = exampleMixed.columns ∧
    verifyColumnOrder (updateColumnCache exampleMixed) = updateColumnCache exampleMixed :=
  verifyColumnOrder_after_updateColumnCache exampleMixed
    ⟨by decide, by
      intro i c hc
      match i, hc with
      | 0, hc => cases hc; decide
      | 1, hc => cases hc; decide
      | 2, hc => cases hc; decide
      | 3, hc => cases hc; decide
      | 4, hc => cases hc; decide
      | n + 5, hc => simp [exampleMixed] at hc⟩
    (by decide)

/-- C8: on a grid whose row headers form a prefix of length `h`, with a duplicate-free order
cache that is a permutation of the data columns, `verifyColumnOrder` leaves the prefix in
place and puts the cached columns behind it in cache order: `columns[h + i] = cache[i]`.
In particular cache `[c2, c1, c3]` and columns `[rowHeader, c1, c2, c3]` give
`[rowHeader, c2, c1, c3]`. -/
theorem verifyColumnOrder_restores_cache (grid : Grid)
    (hpre : RowHeaderPrefix grid) (hnd : grid.orderCache.Nodup)
    (hperm : grid.orderCache.Perm (getOnlyDataColumns grid.columns)) :
    (verifyColumnOrder grid).columns
      = grid.columns.take grid.rowHeaderColumns.length ++ grid.orderCache ∧
    (∀ i : Nat, i < grid.rowHeaderColumns.length →
      (verifyColumnOrder grid).columns[i]? = grid.columns[i]?) ∧
    (∀ i : Nat, (verifyColumnOrder grid).columns[grid.rowHeaderColumns.length + i]?
      = grid.orderCache[i]?) ∧
    (∀ rh c1 c2 c3, grid.columns = [rh, c1, c2, c3] → grid.rowHeaderColumns.length = 1 →
      grid.orderCache = [c2, c1, c3] → (verifyColumnOrder grid).columns = [rh, c2, c1, c3]) := by
  have key : (verifyColumnOrder grid).columns
      = grid.columns.take grid.rowHeaderColumns.length ++ grid.orderCache :=
    verifyLoop_restores grid hpre hnd hperm
  have hlen : (grid.columns.take grid.rowHeaderColumns.length).length
      = grid.rowHeaderColumns.length := by
    have := hpre.1
    simp; omega
  refine ⟨key, fun i hi => ?_, fun i => ?_, fun rh c1 c2 c3 hc hh ho => ?_⟩
  · rw [key, List.getElem?_append_left (by omega), List.getElem?_take, if_pos hi]
  · rw [key, List.getElem?_append_right (by omega), hlen, Nat.add_sub_cancel_left]
  · rw [key, hc, hh, ho]
    rfl

theorem verifyColumnOrder_restores_cache_witness :
    (verifyColumnOrder exampleCached).columns
      = exampleCached.columns.take exampleCached.rowHeaderColumns.length
        ++ exampleCached.orderCache ∧
    (∀ i : Nat, i < exampleCached.rowHeaderColumns.length →
      (verifyColumnOrder exampleCached).columns[i]? = exampleCached.columns[i]?) ∧
    (∀ i : Nat, (verifyColumnOrder exampleCached).columns[
        exampleCached.rowHeaderColumns.length + i]? = exampleCached.orderCache[i]?) ∧
    (∀ rh c1 c2 c3, exampleCached.columns = [rh, c1, c2, c3] →
      exampleCached.rowHeaderColumns.length = 1 →
      exampleCached.orderCache = [c2, c1, c3] →
      (verifyColumnOrder exampleCached).columns = [rh, c2, c1, c3]) :=
  verifyColumnOrder_restores_cache exampleCached
    ⟨by decide, by
      intro i c hc
      match i, hc with
      | 0, hc => cases hc; decide
      | 1, hc => cases hc; decide
      | 2, hc => cases hc; decide
      | 3, hc => cases hc; decide
      | n + 4, hc => simp [exampleCached] at hc⟩
    (by decide) (by decide)

theorem filter_spliceOut (p : Column → Bool) (l : List Column) (n : Nat) (c : Column)
    (hc : l[n]? = some c) (hp : p c = false) :
    (spliceOut l n).filter p = l.filter p := by
  have hn : n < l.length := by
    rcases Nat.lt_or_ge n l.length with h | h
    · exact h
    · rw [List.getElem?_eq_none h] at hc; cases hc
  have hsplit : l = l.take n ++ c :: l.drop (n + 1) := by
    rw [List.getElem?_eq_getElem hn] at hc
    cases hc
    conv_lhs => rw [← List.take_append_drop n l]
    rw [List.drop_eq_getElem_cons hn]
  unfold spliceOut
  conv_rhs => rw [hsplit]
  simp [List.filter_append, List.filter_cons, hp]

theorem filter_spliceIn (p : Column → Bool) (l : List Column) (n : Nat) (c : Column)
    (hp : p c = false) :
    (spliceIn l n c).filter p = l.filter p := by
  unfold spliceIn
  rw [List.filter_append, List.filter_cons, hp]
  simp only [Bool.false_eq_true, if_false]
  rw [← List.filter_append, List.take_append_drop]

theorem filter_verifyStep (p : Column → Bool) (h : Nat) (columns : List Column)
    (cacheCol : Column) (cacheIndex : Nat) (hp : p cacheCol = false) :
    (verifyStep h columns cacheCol cacheIndex).filter p = columns.filter p := by
  unfold verifyStep
  cases hidx : indexOf columns cacheCol with
  | none => rfl
  | some newIndex =>
    have hget := indexOf_getElem? columns cacheCol newIndex hidx
    simp only [hget]
    split
    · rw [filter_spliceIn p _ _ _ hp, filter_spliceOut p _ _ _ hget hp]
    · rfl

theorem filter_verifyLoop (p : Column → Bool) (h : Nat) :
    ∀ (cache columns : List Column) (cacheIndex : Nat), (∀ c ∈ cache, p c = false) →
      (verifyLoop h columns cacheIndex cache).filter p = columns.filter p := by
  intro cache
  induction cache with
  | nil => intro columns cacheIndex _; rfl
  | cons c cs ih =>
    intro columns cacheIndex hp
    unfold verifyLoop
    rw [ih _ _ (fun x hx => hp x (by simp [hx])),
      filter_verifyStep p h columns c cacheIndex (hp c (by simp))]

/-- C9 (as stated, refuted): in `[new 7, cached 1]` with cache `[cached 1]` the column 7,
absent from the cache, sits at index 0 before `verifyColumnOrder` and at index 1 after it. -/
theorem verifyColumnOrder_displaces_uncached :
    dataCol 7 ∉ exampleNewColumn.orderCache ∧
    exampleNewColumn.columns[0]? = some (dataCol 7) ∧
    (verifyColumnOrder exampleNewColumn).columns[0]? ≠ some (dataCol 7) ∧
    (verifyColumnOrder exampleNewColumn).columns = [dataCol 1, dataCol 7] := by
  decide

/-- C9 (amended): `verifyColumnOrder` only takes out and reinserts cached columns, so the
columns absent from the cache keep their order relative to each other: the subsequence of
uncached columns is the same before and after. -/
theorem verifyColumnOrder_keeps_uncached_order (grid : Grid) :
    (verifyColumnOrder grid).columns.filter (fun c => decide (c ∉ grid.orderCache))
      = grid.columns.filter (fun c => decide (c ∉ grid.orderCache)) :=
  filter_verifyLoop _ _ _ _ _ (fun c hc => by simpa using hc)

/-! ## Pointer-up: from displacement to landing index -/

theorem scanDownward_step (bound : Int) (floor : Nat) (c : Column) (rest : List Column)
    (total : Option Int) (h : exceeds (addColumn total c) bound = false) :
    scanDownward bound floor (c :: rest) total
      = scanDownward bound floor rest (addColumn total c) := by
  unfold addColumn at h ⊢
  rw [scanDownward]
  by_cases hs : isShown c = true
  · rw [if_pos hs] at h ⊢
    rw [if_pos hs, h]
    simp
  · rw [if_neg hs, if_neg hs]

theorem scanDownward_cross (bound : Int) (floor : Nat) (c : Column) (rest : List Column)
    (total : Option Int) (h0 : exceeds total bound = false)
    (h : exceeds (addColumn total c) bound = true) :
    scanDownward bound floor (c :: rest) total
      = (addColumn total c, some (floor + rest.length)) := by
  unfold addColumn at h ⊢
  rw [scanDownward]
  by_cases hs : isShown c = true
  · rw [if_pos hs] at h ⊢
    rw [if_pos hs, if_pos h]
  · rw [if_neg hs] at h
    rw [h0] at h
    cases h

theorem scanDownward_append (bound : Int) (floor : Nat) :
    ∀ (A rest : List Column) (total : Option Int),
      (∀ k, 1 ≤ k → k ≤ A.length → exceeds ((A.take k).foldl addColumn total) bound = false) →
      scanDownward bound floor (A ++ rest) total
        = scanDownward bound floor rest (A.foldl addColumn total) := by
  intro A
  induction A with
  | nil => intro rest total _; rfl
  | cons a A ih =>
    intro rest total h
    have h1 := h 1 (by omega) (by simp)
    simp only [List.take_succ_cons, List.take_zero, List.foldl_cons, List.foldl_nil] at h1
    rw [List.cons_append, scanDownward_step _ _ _ _ _ h1, List.foldl_cons]
    apply ih
    intro k hk1 hk2
    have := h (k + 1) (by omega) (by simpa using hk2)
    simpa using this

theorem scanUpward_step (bound : Int) (i : Nat) (c : Column) (rest : List Column)
    (total : Option Int) (h : exceeds (addColumn total c) bound = false) :
    scanUpward bound (c :: rest) i total = scanUpward bound rest (i + 1) (addColumn total c) := by
  unfold addColumn at h ⊢
  rw [scanUpward]
  by_cases hs : isShown c = true
  · rw [if_pos hs] at h ⊢
    rw [if_pos hs, h]
    simp
  · rw [if_neg hs, if_neg hs]

theorem scanUpward_cross (bound : Int) (i : Nat) (c : Column) (rest : List Column)
    (total : Option Int) (h0 : exceeds total bound = false)
    (h : exceeds (addColumn total c) bound = true) :
    scanUpward bound (c :: rest) i total = (addColumn total c, some i) := by
  unfold addColumn at h ⊢
  rw [scanUpward]
  by_cases hs : isShown c = true
  · rw [if_pos hs] at h ⊢
    rw [if_pos hs, if_pos h]
  · rw [if_neg hs] at h
    rw [h0] at h
    cases h

theorem scanUpward_append (bound : Int) :
    ∀ (A rest : List Column) (i : Nat) (total : Option Int),
      (∀ k, 1 ≤ k → k ≤ A.length → exceeds ((A.take k).foldl addColumn total) bound = false) →
      scanUpward bound (A ++ rest) i total
        = scanUpward bound rest (i + A.length) (A.foldl addColumn total) := by
  intro A
  induction A with
  | nil => intro rest i total _; rfl
  | cons a A ih =>
    intro rest i total h
    have h1 := h 1 (by omega) (by simp)
    simp only [List.take_succ_cons, List.take_zero, List.foldl_cons, List.foldl_nil] at h1
    rw [List.cons_append, scanUpward_step _ _ _ _ _ h1, List.foldl_cons, ih]
    · congr 1; simp; omega
    · intro k hk1 hk2
      have := h (k + 1) (by omega) (by simpa using hk2)
      simpa using this

theorem metLeft_split (columns : List Column) (o j : Nat) (hj : j ≤ o)
    (ho : o ≤ columns.length) (j1 : Nat) (hj1 : j1 ≤ j) :
    metLeft columns o j1 = metLeft columns o j ++ metLeft columns j j1 := by
  unfold metLeft
  rw [← List.reverse_append]
  congr 1
  have e : columns.take o = columns.take j ++ (columns.take o).drop j := by
    conv_lhs => rw [← List.take_append_drop j (columns.take o)]
    rw [List.take_take, Nat.min_eq_left hj]
  conv_lhs => rw [e]
  rw [List.drop_append_of_le_length (by simp; omega)]

theorem metLeft_length (columns : List Column) (o j : Nat) (ho : o ≤ columns.length) :
    (metLeft columns o j).length = o - j := by
  unfold metLeft
  simp
  omega

theorem metLeft_single (columns : List Column) (c : Nat) (x : Column)
    (hx : columns[c]? = some x) : metLeft columns (c + 1) c = [x] := by
  have hc : c < columns.length := by
    rcases Nat.lt_or_ge c columns.length with h | h
    · exact h
    · rw [List.getElem?_eq_none h] at hx; cases hx
  unfold metLeft
  rw [List.take_succ, hx]
  have e : (columns.take c ++ [x]).drop c = [x] :=
    List.drop_left' (List.length_take_of_le (Nat.le_of_lt hc))
  simp only [Option.toList, e, List.reverse_cons, List.reverse_nil, List.nil_append]

theorem exceeds_zero (bound : Int) (hb : 0 ≤ bound) : exceeds (some 0) bound = false := by
  unfold exceeds
  simp only [decide_eq_false_iff_not]
  omega

theorem scanDownward_crossing (columns : List Column) (bound : Int) (o c : Nat)
    (hc : c < o) (ho : o ≤ columns.length) (hb : 0 ≤ bound)
    (hcross : exceeds (widthsMet (metLeft columns o c)) bound = true)
    (hfirst : ∀ j, c < j → j < o → exceeds (widthsMet (metLeft columns o j)) bound = false) :
    scanDownward bound 0 (columns.take o).reverse (some 0)
      = (widthsMet (metLeft columns o c), some c) := by
  have hclen : c < columns.length := by omega
  have hx : columns[c]? = some columns[c] := List.getElem?_eq_getElem hclen
  have e0 : (columns.take o).reverse = metLeft columns o 0 := by
    unfold metLeft; rw [List.drop_zero]
  have e1 : metLeft columns o 0 = metLeft columns o (c + 1) ++ metLeft columns (c + 1) 0 :=
    metLeft_split columns o (c + 1) (by omega) ho 0 (by omega)
  have e2 : metLeft columns (c + 1) 0 = [columns[c]] ++ metLeft columns c 0 := by
    rw [metLeft_split columns (c + 1) c (by omega) (by omega) 0 (by omega),
      metLeft_single columns c _ hx]
  have e3 : metLeft columns o c = metLeft columns o (c + 1) ++ [columns[c]] := by
    rw [metLeft_split columns o (c + 1) (by omega) ho c (by omega),
      metLeft_single columns c _ hx]
  have htake : ∀ k, k ≤ o - (c + 1) → (metLeft columns o (c + 1)).take k
      = metLeft columns o (o - k) := by
    intro k hk
    rw [metLeft_split columns o (o - k) (by omega) ho (c + 1) (by omega)]
    exact List.take_left' (by rw [metLeft_length _ _ _ ho]; omega)
  have hA : ∀ k, k ≤ (metLeft columns o (c + 1)).length →
      exceeds (((metLeft columns o (c + 1)).take k).foldl addColumn (some 0)) bound = false := by
    intro k hk2
    rw [metLeft_length _ _ _ ho] at hk2
    rw [htake k hk2]
    by_cases hk0 : k = 0
    · subst hk0
      have : metLeft columns o (o - 0) = [] := by
        unfold metLeft; simp
      rw [this]
      exact exceeds_zero bound hb
    · exact hfirst (o - k) (by omega) (by omega)
  rw [e0, e1, e2, scanDownward_append bound 0 _ _ _ (fun k _ hk => hA k hk)]
  have h0 := hA (metLeft columns o (c + 1)).length (Nat.le_refl _)
  rw [List.take_length] at h0
  have hcr : exceeds (addColumn ((metLeft columns o (c + 1)).foldl addColumn (some 0))
      columns[c]) bound = true := by
    have : widthsMet (metLeft columns o c)
        = addColumn ((metLeft columns o (c + 1)).foldl addColumn (some 0)) columns[c] := by
      unfold widthsMet
      rw [e3, List.foldl_append]
      rfl
    rw [← this]; exact hcross
  rw [List.singleton_append, scanDownward_cross bound 0 _ _ _ h0 hcr]
  have hlen : (metLeft columns c 0).length = c := by
    rw [metLeft_length _ _ _ (by omega)]; omega
  rw [hlen, Nat.zero_add]
  congr 1
  unfold widthsMet
  rw [e3, List.foldl_append]
  rfl

theorem metRight_length (columns : List Column) (o j : Nat) (hj : j < columns.length) :
    (metRight columns o j).length = j - o := by
  unfold metRight
  simp
  omega

theorem scanUpward_crossing (columns : List Column) (bound : Int) (o c : Nat)
    (hc : o < c) (hclen : c < columns.length) (hb : 0 ≤ bound)
    (hcross : exceeds (widthsMet (metRight columns o c)) bound = true)
    (hfirst : ∀ j, o < j → j < c → exceeds (widthsMet (metRight columns o j)) bound = false) :
    scanUpward bound (columns.drop (o + 1)) (o + 1) (some 0)
      = (widthsMet (metRight columns o c), some c) := by
  have e1 : columns.drop (o + 1)
      = metRight columns o (c - 1) ++ (columns[c] :: columns.drop (c + 1)) := by
    unfold metRight
    conv_lhs => rw [← List.take_append_drop (c - 1 - o) (columns.drop (o + 1))]
    congr 1
    rw [List.drop_drop]
    have : o + 1 + (c - 1 - o) = c := by omega
    rw [this, List.drop_eq_getElem_cons hclen]
  have e3 : metRight columns o c = metRight columns o (c - 1) ++ [columns[c]] := by
    unfold metRight
    have h1 : c - o = (c - 1 - o) + 1 := by omega
    rw [h1, List.take_succ, List.getElem?_drop]
    have : o + 1 + (c - 1 - o) = c := by omega
    rw [this, List.getElem?_eq_getElem hclen]
    rfl
  have htake : ∀ k, k ≤ c - 1 - o → (metRight columns o (c - 1)).take k
      = metRight columns o (o + k) := by
    intro k hk
    unfold metRight
    rw [List.take_take, Nat.min_eq_left hk, Nat.add_sub_cancel_left]
  have hA : ∀ k, k ≤ (metRight columns o (c - 1)).length →
      exceeds (((metRight columns o (c - 1)).take k).foldl addColumn (some 0)) bound
        = false := by
    intro k hk2
    rw [metRight_length _ _ _ (by omega)] at hk2
    rw [htake k hk2]
    by_cases hk0 : k = 0
    · subst hk0
      have : metRight columns o (o + 0) = [] := by
        unfold metRight; simp
      rw [this]
      exact exceeds_zero bound hb
    · exact hfirst (o + k) (by omega) (by omega)
  rw [e1, scanUpward_append bound _ _ _ _ (fun k _ hk => hA k hk)]
  have h0 := hA (metRight columns o (c - 1)).length (Nat.le_refl _)
  rw [List.take_length] at h0
  have hw : widthsMet (metRight columns o c)
      = addColumn ((metRight columns o (c - 1)).foldl addColumn (some 0)) columns[c] := by
    unfold widthsMet
    rw [e3, List.foldl_append]
    rfl
  rw [scanUpward_cross bound _ _ _ _ h0 (by rw [← hw]; exact hcross), ← hw,
    metRight_length _ _ _ (by omega)]
  congr 2
  omega

theorem findColumnIndex_le (columns : List Column) (name : Nat) :
    findColumnIndex columns name ≤ columns.length := by
  induction columns with
  | nil => exact Nat.le_refl _
  | cons c rest ih =>
    unfold findColumnIndex
    split
    · simpa using ih
    · exact Nat.zero_le _

theorem jsAbs_nonneg (x : Int) : 0 ≤ jsAbs x := by
  unfold jsAbs
  split <;> omega

theorem fallsShort_of_exceeds (total : Option Int) (bound : Int)
    (h : exceeds total bound = true) : fallsShort total bound = false := by
  cases total with
  | none => rfl
  | some t =>
    unfold exceeds at h
    unfold fallsShort
    simp only [decide_eq_true_eq] at h
    simp only [decide_eq_false_iff_not]
    omega

theorem runCalls_single (grid : Grid) (origin target : Int) :
    runCalls grid [(origin, target)] = redrawColumnAtPosition grid origin target := by
  unfold runCalls
  cases redrawColumnAtPosition grid origin target with
  | error e => rfl
  | ok g => rfl

theorem upFnCalls_left (columns : List Column) (o c : Nat) (d : Int)
    (hd : d < 0) (hc : c < o) (ho : o ≤ columns.length)
    (hcross : exceeds (widthsMet (metLeft columns o c)) (jsAbs d) = true)
    (hfirst : ∀ j, c < j → j < o →
      exceeds (widthsMet (metLeft columns o j)) (jsAbs d) = false) :
    upFnCalls columns false o d = [((o : Int), (c : Int) + 1)] := by
  have hscan := scanDownward_crossing columns (jsAbs d) o c hc ho (jsAbs_nonneg d) hcross hfirst
  unfold upFnCalls
  rw [if_pos hd]
  simp only [Bool.false_eq_true, if_false, hscan, fallsShort_of_exceeds _ _ hcross,
    List.append_nil]

theorem upFnCalls_right (columns : List Column) (o c : Nat) (d : Int)
    (hd : 0 < d) (hc : o < c) (hclen : c < columns.length)
    (hcross : exceeds (widthsMet (metRight columns o c)) d = true)
    (hfirst : ∀ j, o < j → j < c → exceeds (widthsMet (metRight columns o j)) d = false) :
    upFnCalls columns false o d = [((o : Int), (c : Int) - 1)] := by
  have hscan := scanUpward_crossing columns d o c hc hclen (by omega) hcross hfirst
  unfold upFnCalls
  rw [if_neg (by omega), if_pos hd]
  simp only [Bool.false_eq_true, if_false, hscan, fallsShort_of_exceeds _ _ hcross,
    List.append_nil]

theorem foldl_addColumn_hidden (l : List Column) (total : Option Int)
    (h : ∀ y ∈ l, isShown y = false) : l.foldl addColumn total = total := by
  induction l generalizing total with
  | nil => rfl
  | cons a l ih =>
    rw [List.foldl_cons]
    have ha : addColumn total a = total := by
      unfold addColumn
      rw [h a (by simp)]
      simp
    rw [ha]
    exact ih total (fun y hy => h y (by simp [hy]))

theorem mem_metLeft (columns : List Column) (o j : Nat) (y : Column)
    (hy : y ∈ metLeft columns o j) : ∃ i, j ≤ i ∧ i < o ∧ columns[i]? = some y := by
  unfold metLeft at hy
  rw [List.mem_reverse] at hy
  obtain ⟨n, hn⟩ := List.mem_iff_getElem?.mp hy
  rw [List.getElem?_drop, List.getElem?_take] at hn
  split at hn
  · exact ⟨j + n, by omega, by omega, hn⟩
  · cases hn

theorem mem_metRight (columns : List Column) (o j : Nat) (y : Column)
    (hy : y ∈ metRight columns o j) : ∃ i, o < i ∧ i ≤ j ∧ columns[i]? = some y := by
  unfold metRight at hy
  obtain ⟨n, hn⟩ := List.mem_iff_getElem?.mp hy
  rw [List.getElem?_take, List.getElem?_drop] at hn
  split at hn
  · exact ⟨o + 1 + n, by omega, by omega, hn⟩
  · cases hn

theorem toDouble_of_natAbs_le (s : Int) (h : s.natAbs ≤ 2 ^ 53) : toDouble s = s := by
  unfold toDouble
  simp only []
  rw [if_pos h]

theorem addWidth_zero (w : Int) : addWidth (some 0) (some w) = some (toDouble w) := by
  unfold addWidth
  simp only []
  rw [if_neg (by decide), Int.zero_add]
  split_ifs <;> rfl

theorem exceeds_addColumn (x : Column) (w bound : Int) (hs : isShown x = true)
    (hw : columnWidth x = some w) (hdbl : toDouble w = w) (hlt : bound < w) :
    exceeds (addColumn (some 0) x) bound = true := by
  unfold addColumn
  rw [if_pos hs, hw, addWidth_zero, hdbl]
  unfold exceeds
  simp only [decide_eq_true_eq]
  exact hlt

theorem nearest_left_crossing (columns : List Column) (o c : Nat) (bound : Int) (x : Column)
    (w : Int) (hc : c < o) (ho : o ≤ columns.length) (hb : 0 ≤ bound)
    (hx : columns[c]? = some x) (hs : isShown x = true) (hw : columnWidth x = some w)
    (hdbl : toDouble w = w) (hlt : bound < w)
    (hbetween : ∀ j y, c < j → j < o → columns[j]? = some y → isShown y = false) :
    exceeds (widthsMet (metLeft columns o c)) bound = true ∧
    ∀ j, c < j → j < o → exceeds (widthsMet (metLeft columns o j)) bound = false := by
  have hz : ∀ j, c < j → widthsMet (metLeft columns o j) = some 0 := by
    intro j hj
    unfold widthsMet
    apply foldl_addColumn_hidden
    intro y hy
    obtain ⟨i, h1, h2, h3⟩ := mem_metLeft columns o j y hy
    exact hbetween i y (by omega) h2 h3
  refine ⟨?_, fun j h1 _ => by rw [hz j h1]; exact exceeds_zero bound hb⟩
  have e := hz (c + 1) (by omega)
  unfold widthsMet at e ⊢
  rw [metLeft_split columns o (c + 1) (by omega) ho c (by omega),
    metLeft_single columns c x hx, List.foldl_append, e]
  exact exceeds_addColumn x w bound hs hw hdbl hlt

theorem nearest_right_crossing (columns : List Column) (o c : Nat) (bound : Int) (x : Column)
    (w : Int) (hc : o < c) (hb : 0 ≤ bound)
    (hx : columns[c]? = some x) (hs : isShown x = true) (hw : columnWidth x = some w)
    (hdbl : toDouble w = w) (hlt : bound < w)
    (hbetween : ∀ j y, o < j → j < c → columns[j]? = some y → isShown y = false) :
    exceeds (widthsMet (metRight columns o c)) bound = true ∧
    ∀ j, o < j → j < c → exceeds (widthsMet (metRight columns o j)) bound = false := by
  have hclen : c < columns.length := by
    rcases Nat.lt_or_ge c columns.length with h | h
    · exact h
    · rw [List.getElem?_eq_none h] at hx; cases hx
  have hz : ∀ j, j < c → widthsMet (metRight columns o j) = some 0 := by
    intro j hj
    unfold widthsMet
    apply foldl_addColumn_hidden
    intro y hy
    obtain ⟨i, h1, h2, h3⟩ := mem_metRight columns o j y hy
    exact hbetween i y h1 (by omega) h3
  refine ⟨?_, fun j _ h2 => by rw [hz j h2]; exact exceeds_zero bound hb⟩
  have e := hz (c - 1) (by omega)
  have e3 : metRight columns o c = metRight columns o (c - 1) ++ [x] := by
    unfold metRight
    have h1 : c - o = (c - 1 - o) + 1 := by omega
    rw [h1, List.take_succ, List.getElem?_drop]
    have : o + 1 + (c - 1 - o) = c := by omega
    rw [this, hx]
    rfl
  unfold widthsMet at e ⊢
  rw [e3, List.foldl_append, e]
  exact exceeds_addColumn x w bound hs hw hdbl hlt

/-- When the two visibility flags of a skipped column disagree (`colDef.visible` false while
`visible` is still true, as on column 1 of `exampleStaleVisible`), a drag of column 2 by 50
to the left, less than the width of the nearest shown column, still moves the column: the
request is `2 → 1` and the guard of `redrawColumnAtPosition` reads `visible`. -/
theorem upFn_stale_flag_moves :
    ¬ FlagsAgree exampleStaleVisible.columns ∧
    upFnCalls exampleStaleVisible.columns false 2 (-50) = [(2, 1)] ∧
    ∃ g, upFn exampleDragLeft exampleStaleVisible = .ok g ∧
      g.columns.map (fun c => c.ref) = [0, 2, 1] ∧
      g.columns ≠ exampleStaleVisible.columns := by
  refine ⟨by unfold FlagsAgree; decide, by decide, _, rfl, by decide, by decide⟩

/-- The running total is rounded as the code rounds it: with widths 1 and `2 ^ 53` to the left
of the dragged column and a displacement of `-2 ^ 53`, the total stays at `2 ^ 53` after the
last column, exceeds nothing, and no call is made. -/
theorem upFnCalls_rounds_total :
    toDouble (9007199254740992 + 1) = 9007199254740992 ∧
    widthsMet (metLeft exampleHuge.columns 2 0) = some 9007199254740992 ∧
    upFnCalls exampleHuge.columns false 2 (-9007199254740992) = [] := by
  refine ⟨by decide, by decide, by decide⟩

theorem moveElement_moveOccurred (ev : PointerEvent) (changeValue : Int)
    (columns : List Column) (v : DragVars) :
    (moveElement ev changeValue columns v).1.moveOccurred = v.moveOccurred := by
  unfold moveElement
  cases ev.newScrollLeft <;> rfl

theorem moveFn_moveOccurred (ev : PointerEvent) (columns : List Column) (v : DragVars)
    (h : v.moveOccurred = true ∨ v.totalMouseMovement = some 0) :
    (moveFn ev columns v).moveOccurred = true ∨
      (moveFn ev columns v).totalMouseMovement = some 0 := by
  unfold moveFn
  simp only []
  split_ifs
  · exact h
  · exact Or.inl rfl
  · exact Or.inl (moveElement_moveOccurred _ _ _ _)
  · exact Or.inl (moveElement_moveOccurred _ _ _ _)

/-- From pointer-down to pointer-up the displacement is nonzero only after `moveFn` has set
`moveOccurred`: `downFn` resets the displacement and only `moveElement`, called after the
flag is set, changes it. -/
theorem displacement_needs_move (down : PointerEvent) (moves : List PointerEvent)
    (columns : List Column) (v : DragVars) :
    (moves.foldl (fun w ev => moveFn ev columns w) (downFn down v)).toCell.totalMouseMovement
        ≠ 0 →
      (moves.foldl (fun w ev => moveFn ev columns w) (downFn down v)).toCell.moveOccurred
        = true := by
  have hinv : ∀ (ms : List PointerEvent) (w : DragVars),
      (w.moveOccurred = true ∨ w.totalMouseMovement = some 0) →
      ((ms.foldl (fun w ev => moveFn ev columns w) w).moveOccurred = true ∨
        (ms.foldl (fun w ev => moveFn ev columns w) w).totalMouseMovement = some 0) := by
    intro ms
    induction ms with
    | nil => intro w h; exact h
    | cons ev rest ih =>
      intro w h
      rw [List.foldl_cons]
      exact ih _ (moveFn_moveOccurred ev columns w h)
  intro hne
  rcases hinv moves (downFn down v) (Or.inr rfl) with h | h
  · exact h
  · exfalso
    apply hne
    unfold DragVars.toCell
    simp [h]

/-- C10: in a left-to-right grid, after a drag (`moveOccurred` set) of the column at index `o`
with accumulated displacement `d`, the running sum being the total the code accumulates
(binary64 additions of the widths of the shown columns met):
* if `d < 0` and `c < o` is the first index, walking down from `o - 1`, at which the running
  sum exceeds `|d|`, then `upFn` makes exactly one call, `redrawColumnAtPosition(o, c + 1)`;
* if `d > 0` and `c > o` is the first such index walking up from `o + 1`, then `upFn` makes
  exactly one call, `redrawColumnAtPosition(o, c - 1)`;
* in particular, on a grid whose two visibility flags agree, if `c` is the nearest shown
  column on the side of the drag and `|d|` is below its width `w` (a binary64 number), the
  grid is left unchanged. -/
theorem upFn_lands_before_crossing (cell : HeaderCell) (grid : Grid) (o c : Nat)
    (hmove : cell.moveOccurred = true) (hltr : grid.rtl = false)
    (ho : findColumnIndex grid.columns cell.colName = o) (holen : o < grid.columns.length) :
    (cell.totalMouseMovement < 0 → c < o →
      exceeds (widthsMet (metLeft grid.columns o c)) (jsAbs cell.totalMouseMovement) = true →
      (∀ j, c < j → j < o →
        exceeds (widthsMet (metLeft grid.columns o j)) (jsAbs cell.totalMouseMovement)
          = false) →
      upFnCalls grid.columns grid.rtl o cell.totalMouseMovement = [((o : Int), (c : Int) + 1)] ∧
      upFn cell grid = redrawColumnAtPosition grid (o : Int) ((c : Int) + 1)) ∧
    (0 < cell.totalMouseMovement → o < c → c < grid.columns.length →
      exceeds (widthsMet (metRight grid.columns o c)) cell.totalMouseMovement = true →
      (∀ j, o < j → j < c →
        exceeds (widthsMet (metRight grid.columns o j)) cell.totalMouseMovement = false) →
      upFnCalls grid.columns grid.rtl o cell.totalMouseMovement = [((o : Int), (c : Int) - 1)] ∧
      upFn cell grid = redrawColumnAtPosition grid (o : Int) ((c : Int) - 1)) ∧
    (∀ x w, FlagsAgree grid.columns → cell.totalMouseMovement < 0 → c < o →
      grid.columns[c]? = some x → isShown x = true → columnWidth x = some w →
      toDouble w = w → jsAbs cell.totalMouseMovement < w →
      (∀ j y, c < j → j < o → grid.columns[j]? = some y → isShown y = false) →
      upFn cell grid = .ok grid) ∧
    (∀ x w, FlagsAgree grid.columns → 0 < cell.totalMouseMovement → o < c →
      grid.columns[c]? = some x → isShown x = true → columnWidth x = some w →
      toDouble w = w → jsAbs cell.totalMouseMovement < w →
      (∀ j y, o < j → j < c → grid.columns[j]? = some y → isShown y = false) →
      upFn cell grid = .ok grid) := by
  have hole : o ≤ grid.columns.length := Nat.le_of_lt holen
  have hup : upFn cell grid
      = runCalls grid (upFnCalls grid.columns grid.rtl o cell.totalMouseMovement) := by
    unfold upFn
    rw [hmove, ho]
    rfl
  have hleft : cell.totalMouseMovement < 0 → c < o →
      exceeds (widthsMet (metLeft grid.columns o c)) (jsAbs cell.totalMouseMovement) = true →
      (∀ j, c < j → j < o →
        exceeds (widthsMet (metLeft grid.columns o j)) (jsAbs cell.totalMouseMovement)
          = false) →
      upFnCalls grid.columns grid.rtl o cell.totalMouseMovement = [((o : Int), (c : Int) + 1)] ∧
      upFn cell grid = redrawColumnAtPosition grid (o : Int) ((c : Int) + 1) := by
    intro hd hc hcross hfirst
    have hcalls := upFnCalls_left grid.columns o c _ hd hc hole hcross hfirst
    rw [hltr]
    exact ⟨hcalls, by rw [hup, hltr, hcalls, runCalls_single]⟩
  have hright : 0 < cell.totalMouseMovement → o < c → c < grid.columns.length →
      exceeds (widthsMet (metRight grid.columns o c)) cell.totalMouseMovement = true →
      (∀ j, o < j → j < c →
        exceeds (widthsMet (metRight grid.columns o j)) cell.totalMouseMovement = false) →
      upFnCalls grid.columns grid.rtl o cell.totalMouseMovement = [((o : Int), (c : Int) - 1)] ∧
      upFn cell grid = redrawColumnAtPosition grid (o : Int) ((c : Int) - 1) := by
    intro hd hc hclen hcross hfirst
    have hcalls := upFnCalls_right grid.columns o c _ hd hc hclen hcross hfirst
    rw [hltr]
    exact ⟨hcalls, by rw [hup, hltr, hcalls, runCalls_single]⟩
  refine ⟨hleft, hright, ?_, ?_⟩
  · intro x w hflags hd hc hx hs hw hdbl hlt hbetween
    obtain ⟨h1, h2⟩ := nearest_left_crossing grid.columns o c
      (jsAbs cell.totalMouseMovement) x w hc hole (jsAbs_nonneg _) hx hs hw hdbl hlt hbetween
    rw [(hleft hd hc h1 h2).2]
    have hcast : ((c : Int) + 1) = ((c + 1 : Nat) : Int) := by push_cast; rfl
    rw [hcast]
    apply redraw_noop grid o (c + 1) holen (by omega)
    rintro ⟨-, ⟨i, y, hi, hy, hv⟩, -⟩
    have hshown := hbetween i y (by omega) (by omega) hy
    rw [hflags y (List.getElem?_mem hy), hshown] at hv
    cases hv
  · intro x w hflags hd hc hx hs hw hdbl hlt hbetween
    have hclen : c < grid.columns.length := by
      rcases Nat.lt_or_ge c grid.columns.length with h | h
      · exact h
      · rw [List.getElem?_eq_none h] at hx; cases hx
    have hlt1 : cell.totalMouseMovement < w := by
      unfold jsAbs at hlt
      rw [if_neg (by omega)] at hlt
      exact hlt
    obtain ⟨h1, h2⟩ := nearest_right_crossing grid.columns o c cell.totalMouseMovement x w hc
      (by omega) hx hs hw hdbl hlt1 hbetween
    rw [(hright hd hc hclen h1 h2).2]
    have hcast : ((c : Int) - 1) = ((c - 1 : Nat) : Int) := by omega
    rw [hcast]
    apply redraw_noop grid o (c - 1) holen (by omega)
    rintro ⟨-, ⟨i, y, hi, hy, hv⟩, -⟩
    have hshown := hbetween i y (by omega) (by omega) hy
    rw [hflags y (List.getElem?_mem hy), hshown] at hv
    cases hv

theorem upFn_lands_before_crossing_witness :
    (upFnCalls exampleWide.columns exampleWide.rtl 2 exampleDragLeft.totalMouseMovement
        = [(((2 : Nat) : Int), ((0 : Nat) : Int) + 1)] ∧
      upFn exampleDragLeft exampleWide
        = redrawColumnAtPosition exampleWide ((2 : Nat) : Int) (((0 : Nat) : Int) + 1)) ∧
    upFn exampleDragLeft exampleWide = .ok exampleWide :=
  have h := upFn_lands_before_crossing exampleDragLeft exampleWide 2 0 rfl rfl rfl (by decide)
  ⟨h.1 (by decide) (by decide) (by decide)
      (fun j h1 h2 => by
        have hj : j = 1 := by omega
        subst hj
        decide),
    h.2.2.1 _ 100 (by unfold FlagsAgree; decide) (by decide) (by decide) rfl rfl rfl rfl
      (by decide)
      (fun j y h1 h2 hy => by
        have hj : j = 1 := by omega
        subst hj
        cases hy
        rfl)⟩

/-! ## Pointer-up at the end of the array and in right-to-left grids -/

/-- C11 (failing input): three visible columns of width 100, origin index 1.  With `d = -100`
the running sum reaches 100, which never exceeds `|d|`, and the column array ends; `upFn`
makes no call at all and the grid is unchanged.  With `d = -150` it requests the move to
index 0. -/
theorem upFn_exact_width_requests_nothing :
    exceeds (widthsMet (metLeft exampleWidths.columns 1 0)) (jsAbs (-100)) = false ∧
    upFnCalls exampleWidths.columns false 1 (-100) = [] ∧
    upFn (dragOf 1 (-100)) exampleWidths = .ok exampleWidths ∧
    upFnCalls exampleWidths.columns false 1 (-150) = [(1, 0)] := by
  refine ⟨by decide, by decide, rfl, by decide⟩

/-- For a negative displacement the right-to-left branch requests what the left-to-right
branch requests for the opposite displacement. -/
theorem upFnCalls_rtl_neg (columns : List Column) (o : Nat) (d : Int) (hd : d < 0) :
    upFnCalls columns true o d = upFnCalls columns false o (-d) := by
  have habs : jsAbs d = -d := by unfold jsAbs; rw [if_pos hd]
  have h1 : ¬ (-d < 0) := by omega
  have h2 : -d > 0 := by omega
  unfold upFnCalls
  rw [if_pos hd, if_neg h1, if_pos h2, habs]
  simp

/-- C12 (failing input): three visible columns of width 100, origin index 2.  In a
right-to-left grid the displacement `50` requests the move `2 → 1` and the column array
changes; in a left-to-right grid the displacement `-50` requests `2 → 2` and nothing
changes. -/
theorem upFn_rtl_not_mirror :
    upFnCalls exampleWidthsRtl.columns true 2 50 = [(2, 1)] ∧
    upFnCalls exampleWidths.columns false 2 (-50) = [(2, 2)] ∧
    (∃ g, upFn (dragOf 2 50) exampleWidthsRtl = .ok g ∧
      g.columns = [wideCol 0 100, wideCol 2 100, wideCol 1 100]) ∧
    upFn (dragOf 2 (-50)) exampleWidths = .ok exampleWidths := by
  refine ⟨by decide, by decide, ⟨_, rfl, rfl⟩, rfl⟩

/-! ## Effects of a commit -/

theorem runTimeout_cons (grid : Grid) (n : Notification) (rest : List Notification)
    (h : grid.timeouts = n :: rest) :
    (runTimeout grid).timeouts = rest ∧ (runTimeout grid).raised = grid.raised ++ [n] := by
  unfold runTimeout
  rw [h]
  exact ⟨rfl, rfl⟩

theorem iterate_runTimeout (pending : List Notification) :
    ∀ grid : Grid, grid.timeouts = pending →
      (runTimeout^[pending.length] grid).timeouts = [] ∧
      (runTimeout^[pending.length] grid).raised = grid.raised ++ pending := by
  induction pending with
  | nil =>
    intro grid h
    simp [h]
  | cons n rest ih =>
    intro grid h
    obtain ⟨h1, h2⟩ := runTimeout_cons grid n rest h
    obtain ⟨h3, h4⟩ := ih (runTimeout grid) h1
    rw [List.length_cons, Function.iterate_succ_apply]
    refine ⟨h3, ?_⟩
    rw [h4, h2, List.append_assoc]
    rfl

theorem flushTimeouts_raised (grid : Grid) :
    (flushTimeouts grid).timeouts = [] ∧
    (flushTimeouts grid).raised = grid.raised ++ grid.timeouts :=
  iterate_runTimeout grid.timeouts grid rfl

/-- C13: a committed `redrawColumnAtPosition a b` leaves the order cache equal to the
non-row-header columns of the new column array, in their new order; it has queued exactly
one more refresh and scheduled exactly one more `$timeout` callback, which carries the moved
column and the indices `a` and `b`; no event has been raised inside the call.  Running the
pending callbacks afterwards raises that event once, after the ones scheduled earlier. -/
theorem redrawColumnAtPosition_commit_effects (grid : Grid) (a b : Nat)
    (ha : a < grid.columns.length) (hb : b < grid.columns.length)
    (h : Commits grid.columns a b) :
    ∃ g c, redrawColumnAtPosition grid (a : Int) (b : Int) = .ok g ∧
      grid.columns[a]? = some c ∧
      g.orderCache = g.columns.filter (fun x => !x.isRowHeader) ∧
      g.refreshQueued = grid.refreshQueued + 1 ∧
      g.timeouts = grid.timeouts ++ [⟨c, (a : Int), (b : Int)⟩] ∧
      g.raised = grid.raised ∧
      (flushTimeouts g).raised
        = grid.raised ++ grid.timeouts ++ [⟨c, (a : Int), (b : Int)⟩] := by
  refine ⟨_, grid.columns[a], redraw_commit grid a b ha hb h, List.getElem?_eq_getElem ha,
    rfl, rfl, rfl, rfl, ?_⟩
  rw [(flushTimeouts_raised _).2, List.append_assoc]
  rfl

theorem redrawColumnAtPosition_commit_effects_witness :
    ∃ g c, redrawColumnAtPosition exampleBusy ((1 : Nat) : Int) ((3 : Nat) : Int) = .ok g ∧
      exampleBusy.columns[1]? = some c ∧
      g.orderCache = g.columns.filter (fun x => !x.isRowHeader) ∧
      g.refreshQueued = exampleBusy.refreshQueued + 1 ∧
      g.timeouts = exampleBusy.timeouts ++ [⟨c, ((1 : Nat) : Int), ((3 : Nat) : Int)⟩] ∧
      g.raised = exampleBusy.raised ∧
      (flushTimeouts g).raised
        = exampleBusy.raised ++ exampleBusy.timeouts
          ++ [⟨c, ((1 : Nat) : Int), ((3 : Nat) : Int)⟩] :=
  redrawColumnAtPosition_commit_effects exampleBusy 1 3 (by decide) (by decide)
    ⟨by decide, ⟨2, dataCol 2, Or.inl ⟨by decide, by decide⟩, rfl, rfl⟩, ⟨dataCol 1, rfl, rfl⟩⟩

/-! ## A click without a drag -/

theorem moveFn_zero_delta (ev : PointerEvent) (columns : List Column) (v : DragVars)
    (h : ev.pageX = v.previousMouseX) : moveFn ev columns v = v := by
  unfold moveFn
  simp [h]

theorem foldl_moveFn_zero_delta (columns : List Column) :
    ∀ (moves : List PointerEvent) (v : DragVars),
      (∀ ev ∈ moves, ev.pageX = v.previousMouseX) →
      moves.foldl (fun w ev => moveFn ev columns w) v = v := by
  intro moves
  induction moves with
  | nil => intro v _; rfl
  | cons ev rest ih =>
    intro v h
    rw [List.foldl_cons, moveFn_zero_delta ev columns v (h ev (by simp))]
    exact ih v (fun e he => h e (by simp [he]))

theorem upFnCalls_zero (columns : List Column) (rtl : Bool) (o : Nat) :
    upFnCalls columns rtl o 0 = [] := by
  unfold upFnCalls
  simp

/-- C14: whatever the closure variables are when the pointer goes down (in particular with
`moveOccurred` still set by an earlier drag, which `downFn` does not clear), a pointer-down
followed by pointer-moves that all have delta zero and by a pointer-up requests no move:
`upFn` makes no call to `redrawColumnAtPosition` and returns the grid unchanged. -/
theorem click_requests_no_move (v : DragVars) (grid : Grid) (down : PointerEvent)
    (moves : List PointerEvent) (hzero : ∀ ev ∈ moves, ev.pageX - down.pageX = 0) :
    (downFn down v).moveOccurred = v.moveOccurred ∧
    moves.foldl (fun w ev => moveFn ev grid.columns w) (downFn down v) = downFn down v ∧
    upFnCalls grid.columns grid.rtl (findColumnIndex grid.columns v.colName)
      (downFn down v).toCell.totalMouseMovement = [] ∧
    gesture down moves v grid = .ok grid := by
  have hfold : moves.foldl (fun w ev => moveFn ev grid.columns w) (downFn down v)
      = downFn down v :=
    foldl_moveFn_zero_delta grid.columns moves (downFn down v)
      (fun ev he => by
        have := hzero ev he
        show ev.pageX = down.pageX
        omega)
  have hcalls : upFnCalls grid.columns grid.rtl (findColumnIndex grid.columns v.colName)
      (downFn down v).toCell.totalMouseMovement = [] :=
    upFnCalls_zero _ _ _
  refine ⟨rfl, hfold, hcalls, ?_⟩
  unfold gesture
  rw [hfold]
  unfold upFn
  by_cases hm : (downFn down v).toCell.moveOccurred = true
  · rw [hm]
    simp only [Bool.not_true, Bool.false_eq_true, if_false]
    have hname : (downFn down v).toCell.colName = v.colName := rfl
    rw [hname, hcalls]
    rfl
  · simp only [hm]
    rfl

theorem click_requests_no_move_witness :
    (downFn { pageX := 40 } exampleAfterDrag).moveOccurred = exampleAfterDrag.moveOccurred ∧
    [({ pageX := 40, elmLeft := 7 } : PointerEvent)].foldl
        (fun w ev => moveFn ev exampleThree.columns w) (downFn { pageX := 40 } exampleAfterDrag)
      = downFn { pageX := 40 } exampleAfterDrag ∧
    upFnCalls exampleThree.columns exampleThree.rtl
      (findColumnIndex exampleThree.columns exampleAfterDrag.colName)
      (downFn { pageX := 40 } exampleAfterDrag).toCell.totalMouseMovement = [] ∧
    gesture { pageX := 40 } [{ pageX := 40, elmLeft := 7 }] exampleAfterDrag exampleThree
      = .ok exampleThree :=
  click_requests_no_move exampleAfterDrag exampleThree { pageX := 40 }
    [{ pageX := 40, elmLeft := 7 }]
    (fun ev he => by
      have : ev = { pageX := 40, elmLeft := 7 } := by simpa using he
      subst this
      decide)

/-! ## The column array stays a permutation -/

theorem verifyStep_perm (h : Nat) (columns : List Column) (cacheCol : Column)
    (cacheIndex : Nat) : (verifyStep h columns cacheCol cacheIndex).Perm columns := by
  unfold verifyStep
  cases hidx : indexOf columns cacheCol with
  | none => exact List.Perm.refl _
  | some newIndex =>
    have hget := indexOf_getElem? columns cacheCol newIndex hidx
    simp only [hget]
    split
    · exact (spliceIn_perm _ _ _).trans (spliceOut_perm columns newIndex cacheCol hget).symm
    · exact List.Perm.refl _

theorem verifyLoop_perm (h : Nat) :
    ∀ (cache columns : List Column) (cacheIndex : Nat),
      (verifyLoop h columns cacheIndex cache).Perm columns := by
  intro cache
  induction cache with
  | nil => intro columns _; exact List.Perm.refl _
  | cons c cs ih =>
    intro columns cacheIndex
    unfold verifyLoop
    exact (ih _ _).trans (verifyStep_perm h columns c cacheIndex)

theorem redraw_in_range (grid : Grid) (a b : Nat)
    (ha : a < grid.columns.length) (hb : b < grid.columns.length) :
    ∃ g, redrawColumnAtPosition grid (a : Int) (b : Int) = .ok g ∧
      (g.columns = grid.columns ∨ g.columns = movedColumns grid.columns a b) ∧
      g.rowHeaderColumns = grid.rowHeaderColumns := by
  by_cases h : Commits grid.columns a b
  · exact ⟨_, redraw_commit grid a b ha hb h, Or.inr rfl, rfl⟩
  · exact ⟨_, redraw_noop grid a b ha hb h, Or.inl rfl, rfl⟩

/-- C17: both operations that write `grid.columns` return a permutation of it.  For in-range
indices `redrawColumnAtPosition` returns normally, and for every cache `verifyColumnOrder`
returns, a column array with the same columns in the same multiplicities; so the length is
kept and an array without duplicates stays without duplicates. -/
theorem columns_stay_a_permutation (grid : Grid) (a b : Nat)
    (ha : a < grid.columns.length) (hb : b < grid.columns.length) :
    (∃ g, redrawColumnAtPosition grid (a : Int) (b : Int) = .ok g ∧
      g.columns.Perm grid.columns ∧
      g.columns.length = grid.columns.length ∧
      (grid.columns.Nodup → g.columns.Nodup) ∧
      ((grid.columns.map (fun c => c.ref)).Nodup → (g.columns.map (fun c => c.ref)).Nodup)) ∧
    ((verifyColumnOrder grid).columns.Perm grid.columns ∧
      (verifyColumnOrder grid).columns.length = grid.columns.length ∧
      (grid.columns.Nodup → (verifyColumnOrder grid).columns.Nodup) ∧
      ((grid.columns.map (fun c => c.ref)).Nodup →
        ((verifyColumnOrder grid).columns.map (fun c => c.ref)).Nodup)) := by
  have key : ∀ l : List Column, l.Perm grid.columns →
      l.Perm grid.columns ∧ l.length = grid.columns.length ∧
      (grid.columns.Nodup → l.Nodup) ∧
      ((grid.columns.map (fun c => c.ref)).Nodup → (l.map (fun c => c.ref)).Nodup) :=
    fun l hp => ⟨hp, hp.length_eq, fun hn => hp.symm.nodup hn,
      fun hn => (hp.map _).symm.nodup hn⟩
  constructor
  · obtain ⟨g, hg, hcols, -⟩ := redraw_in_range grid a b ha hb
    refine ⟨g, hg, key g.columns ?_⟩
    rcases hcols with h | h
    · rw [h]
    · rw [h]; exact movedColumns_perm _ _ _
  · exact key _ (verifyLoop_perm _ _ _ _)

theorem columns_stay_a_permutation_witness :
    (∃ g, redrawColumnAtPosition exampleStaleCache ((0 : Nat) : Int) ((1 : Nat) : Int) = .ok g ∧
      g.columns.Perm exampleStaleCache.columns ∧
      g.columns.length = exampleStaleCache.columns.length ∧
      (exampleStaleCache.columns.Nodup → g.columns.Nodup) ∧
      ((exampleStaleCache.columns.map (fun c => c.ref)).Nodup →
        (g.columns.map (fun c => c.ref)).Nodup)) ∧
    ((verifyColumnOrder exampleStaleCache).columns.Perm exampleStaleCache.columns ∧
      (verifyColumnOrder exampleStaleCache).columns.length = exampleStaleCache.columns.length ∧
      (exampleStaleCache.columns.Nodup → (verifyColumnOrder exampleStaleCache).columns.Nodup) ∧
      ((exampleStaleCache.columns.map (fun c => c.ref)).Nodup →
        ((verifyColumnOrder exampleStaleCache).columns.map (fun c => c.ref)).Nodup)) :=
  columns_stay_a_permutation exampleStaleCache 0 1 (by decide) (by decide)

/-! ## The row-header prefix -/

theorem slot_not_in_row_headers (grid : Grid) (hpre : RowHeaderPrefix grid) (k i : Nat)
    (hs : IsSlot grid.columns k i) : grid.rowHeaderColumns.length ≤ i := by
  obtain ⟨⟨c, hc, hq⟩, -⟩ := hs
  have hrow : c.isRowHeader = false := by
    unfold isHiddenOrRowHeader at hq
    cases hr : c.isRowHeader with
    | false => rfl
    | true => rw [hr] at hq; simp at hq
  by_contra hlt
  have := (hpre.2 i c hc).mpr (by omega)
  rw [hrow] at this
  cases this

theorem movedColumns_rowHeaderPrefix (grid : Grid) (hpre : RowHeaderPrefix grid) (a b : Nat)
    (ha : a < grid.columns.length) (hb : b < grid.columns.length)
    (hha : grid.rowHeaderColumns.length ≤ a) (hhb : grid.rowHeaderColumns.length ≤ b)
    (g : Grid) (hcols : g.columns = movedColumns grid.columns a b)
    (hrow : g.rowHeaderColumns = grid.rowHeaderColumns) :
    g.columns.take grid.rowHeaderColumns.length
      = grid.columns.take grid.rowHeaderColumns.length ∧ RowHeaderPrefix g := by
  have hget := movedColumns_getElem? grid.columns a b ha hb
  constructor
  · apply List.ext_getElem?
    intro i
    rw [List.getElem?_take, List.getElem?_take, hcols]
    split
    · rw [hget i, if_neg (by omega), if_neg (by omega), if_neg (by omega)]
    · rfl
  · refine ⟨by rw [hcols, hrow, movedColumns_length _ _ _ ha hb]; exact hpre.1, ?_⟩
    intro i c hc
    rw [hcols, hget i] at hc
    rw [hrow]
    split_ifs at hc with h1 h2 h3
    · have := hpre.2 a c hc
      constructor
      · intro hr; have := this.mp hr; omega
      · intro hi; omega
    · have := hpre.2 (i + 1) c hc
      constructor
      · intro hr; have := this.mp hr; omega
      · intro hi; omega
    · have := hpre.2 (i - 1) c hc
      constructor
      · intro hr; have := this.mp hr; omega
      · intro hi; omega
    · exact hpre.2 i c hc

/-- C15: on a grid whose row headers form a prefix, `moveColumn` with two valid slots returns
normally and leaves the row headers where they were: the first `rowHeaderColumns.length`
columns are the same columns in the same order, and they are still exactly the row-header
columns of the array, so no data column has been placed in front of one. -/
theorem moveColumn_keeps_row_headers (grid : Grid) (a b : Int)
    (hpre : RowHeaderPrefix grid)
    (ha0 : 0 ≤ a) (haM : a < movableCount grid.columns)
    (hb0 : 0 ≤ b) (hbM : b < movableCount grid.columns) :
    ∃ g, moveColumn grid a b = .ok g ∧
      g.rowHeaderColumns = grid.rowHeaderColumns ∧
      g.columns.take grid.rowHeaderColumns.length
        = grid.columns.take grid.rowHeaderColumns.length ∧
      RowHeaderPrefix g := by
  obtain ⟨ka, rfl⟩ := Int.eq_ofNat_of_zero_le ha0
  obtain ⟨kb, rfl⟩ := Int.eq_ofNat_of_zero_le hb0
  obtain ⟨i, hi, hsi, hfi⟩ := findPositionForRenderIndex_slot grid.columns ka haM
  obtain ⟨j, hj, hsj, hfj⟩ := findPositionForRenderIndex_slot grid.columns kb hbM
  have hhi := slot_not_in_row_headers grid hpre ka i hsi
  have hhj := slot_not_in_row_headers grid hpre kb j hsj
  rw [moveColumn_of_find grid _ _ _ _ haM hbM hfi hfj]
  obtain ⟨g, hg, hcols, hrow⟩ := redraw_in_range grid i j hi hj
  refine ⟨g, hg, hrow, ?_⟩
  rcases hcols with h | h
  · refine ⟨by rw [h], ?_⟩
    refine ⟨by rw [h, hrow]; exact hpre.1, fun n c hc => ?_⟩
    rw [h] at hc
    rw [hrow]
    exact hpre.2 n c hc
  · exact movedColumns_rowHeaderPrefix grid hpre i j hi hj hhi hhj g h hrow

theorem rowHeaderPrefix_exampleFixed : RowHeaderPrefix exampleFixed :=
  ⟨by decide, by
    intro i c hc
    match i, hc with
    | 0, hc => cases hc; decide
    | 1, hc => cases hc; decide
    | 2, hc => cases hc; decide
    | n + 3, hc => simp [exampleFixed] at hc⟩

theorem moveColumn_keeps_row_headers_witness :
    ∃ g, moveColumn exampleFixed 1 0 = .ok g ∧
      g.rowHeaderColumns = exampleFixed.rowHeaderColumns ∧
      g.columns.take exampleFixed.rowHeaderColumns.length
        = exampleFixed.columns.take exampleFixed.rowHeaderColumns.length ∧
      RowHeaderPrefix g :=
  moveColumn_keeps_row_headers exampleFixed 1 0 rowHeaderPrefix_exampleFixed
    (by decide) (by decide) (by decide) (by decide)

/-- C16 (failing input): a row header followed by two data columns, all visible, in a
left-to-right grid whose row headers form a prefix of length 1.  Dragging the last column
500 to the left runs past every column, `upFn` requests the move `2 → 0`, and the data
column lands at index 0, in front of the row header. -/
theorem upFn_lands_before_row_header :
    RowHeaderPrefix exampleFixed ∧
    upFnCalls exampleFixed.columns exampleFixed.rtl 2 (-500) = [(2, 0)] ∧
    ∃ g, upFn (dragOf 2 (-500)) exampleFixed = .ok g ∧
      g.columns = [wideCol 2 100, { rowHeaderCol 9 with drawnWidth := some 30 }, wideCol 1 100] ∧
      g.columns.take 1 ≠ exampleFixed.columns.take 1 ∧
      ¬ RowHeaderPrefix g := by
  refine ⟨rowHeaderPrefix_exampleFixed, by decide, _, rfl, rfl, by decide, ?_⟩
  intro h
  have := (h.2 0 (wideCol 2 100) rfl).mpr (by decide)
  cases this

end ColumnMovable
